import Mathlib

/-!
Verification development for the sequelize-migrator repository.

The development shallowly embeds the two JavaScript sources
`src/migration-sql-parse.js` (the SQL splitter) and `src/Migrator.js`
(the migration runner), together with the promise-chain variant of the
runner found in `src/unnamed/part_001`.  Strings are modelled by Lean
`String`; asynchronous, fallible operations by `Except`-valued
functions; the database session (transactions, savepoints, the ledger
table, the search path) by explicit state passing; and the observable
database/filesystem interactions by a trace of events.
-/

namespace SequelizeMigrator

/-- Errors surfaced by the embedded code.  They mirror the `Error`
values thrown by the JavaScript sources: the splitter usage error,
`fs` callback errors, the missing-up/down-SQL errors of
`migrationsUp_`/`migrationsDown_`, a failure reported by
`sequelize.query` for a given SQL text, and the JavaScript
`ReferenceError` raised when an undefined identifier is called. -/
inductive Err where
  | usage
  | ioError (file : String)
  | missingUpSql (name : String)
  | missingDownSql (name : String)
  | sqlError (sql : String)
  | referenceError
deriving DecidableEq, Repr

/-- Result shape of the splitter: `{up, down}` with `down` possibly
`null` (modelled by `Option`). -/
structure SplitResult where
  up : String
  down : Option String
deriving DecidableEq, Repr

instance {ε α : Type} [DecidableEq ε] [DecidableEq α] : DecidableEq (Except ε α) := fun
  | .ok a, .ok b =>
    if h : a = b then .isTrue (by rw [h]) else .isFalse (by simp [h])
  | .ok _, .error _ => .isFalse (by simp)
  | .error _, .ok _ => .isFalse (by simp)
  | .error e, .error f =>
    if h : e = f then .isTrue (by rw [h]) else .isFalse (by simp [h])

/-- The constant `kDefaultDelimiter` of `src/migration-sql-parse.js`. -/
def kDefaultDelimiter : String := "\n-- MIGRATION DOWN SQL\n"

/-- Model of `String.prototype.indexOf` on character lists: the least position at
which `d` occurs in `text`, `none` when there is no occurrence (JS
returns `-1`).  For the empty search string the result is `some 0`,
as in JavaScript. -/
def jsIndexOf : List Char → List Char → Option Nat
  | text, d =>
    if d.isPrefixOf text then some 0
    else
      match text with
      | [] => none
      | _ :: rest => (jsIndexOf rest d).map (fun n => n + 1)

/-- Model of `text.substr(0, n)` on our string model. -/
def strTake (s : String) (n : Nat) : String := ⟨s.data.take n⟩

/-- Model of `text.substr(n)` on our string model. -/
def strDrop (s : String) (n : Nat) : String := ⟨s.data.drop n⟩

/-- The value read at line 18 of `src/migration-sql-parse.js` by the
expression `exports.kDefaultDelimiter`.  The module reassigns
`module.exports` to the parser function and later sets
`module.exports.kDefaultDelimiter`; the original `exports` object never
receives the property, so the property read evaluates to `undefined`. -/
def exportsKDefaultDelimiter : Option String := none

/-- Coercion applied by `String.prototype.indexOf` to its argument:
`undefined` is converted to the string `"undefined"`. -/
def searchText : Option String → String
  | some s => s
  | none => "undefined"

/-- Embedding of the exported function of `src/migration-sql-parse.js`.
`migrationSql` is the input text and `optDelimiter` the second
argument; the JavaScript default-parameter case corresponds to passing
`kDefaultDelimiter` explicitly.  A falsy (empty) `optDelimiter` falls
back to `exports.kDefaultDelimiter`, which is `undefined` (see
`exportsKDefaultDelimiter`), and `indexOf` then searches for the
string `"undefined"`. -/
def migrationSqlParse (migrationSql : String) (optDelimiter : String) :
    Except Err SplitResult :=
  if migrationSql = "" then
    .error .usage
  else
    let delimiter :=
      searchText (if optDelimiter = "" then exportsKDefaultDelimiter else some optDelimiter)
    match jsIndexOf migrationSql.data delimiter.data with
    | some p => .ok ⟨strTake migrationSql p, some (strDrop migrationSql p)⟩
    | none => .ok ⟨migrationSql, none⟩

/-- Containment test `text.includes(d)` expressed through the embedded `indexOf`. -/
def strOccurs (s d : String) : Bool := (jsIndexOf s.data d.data).isSome

/-! ### Facts about the embedded `indexOf` -/

theorem isPrefixOf_eq_true_iff {l₁ l₂ : List Char} :
    l₁.isPrefixOf l₂ = true ↔ ∃ t, l₂ = l₁ ++ t := by
  induction l₁ generalizing l₂ with
  | nil => simp [List.isPrefixOf]
  | cons a as ih =>
    cases l₂ with
    | nil => simp [List.isPrefixOf]
    | cons b bs =>
      simp only [List.isPrefixOf, Bool.and_eq_true, beq_iff_eq]
      constructor
      · rintro ⟨rfl, h⟩
        obtain ⟨t, rfl⟩ := ih.mp h
        exact ⟨t, rfl⟩
      · rintro ⟨t, ht⟩
        injection ht with h1 h2
        exact ⟨h1.symm, ih.mpr ⟨t, h2⟩⟩

theorem jsIndexOf_some_decomp {text d : List Char} {p : Nat}
    (h : jsIndexOf text d = some p) : ∃ t, text.drop p = d ++ t := by
  induction text generalizing p with
  | nil =>
    rw [jsIndexOf] at h
    by_cases hp : d.isPrefixOf [] = true
    · simp [hp] at h
      subst h
      exact isPrefixOf_eq_true_iff.mp hp
    · simp [hp] at h
  | cons c rest ih =>
    rw [jsIndexOf] at h
    by_cases hp : d.isPrefixOf (c :: rest) = true
    · simp [hp] at h
      subst h
      exact isPrefixOf_eq_true_iff.mp hp
    · simp [hp, Option.map_eq_some'] at h
      obtain ⟨q, hq, rfl⟩ := h
      simpa using ih hq

theorem jsIndexOf_some_mem {text d : List Char} {p : Nat} {a : Char}
    (h : jsIndexOf text d = some p) (ha : a ∈ d) : a ∈ text := by
  obtain ⟨t, ht⟩ := jsIndexOf_some_decomp h
  have : a ∈ text.drop p := by
    rw [ht]
    exact List.mem_append_left t ha
  exact List.mem_of_mem_drop this

/-- A whitespace-only text cannot contain the default delimiter (which
contains the character `-`), so `indexOf` reports no occurrence. -/
theorem jsIndexOf_whitespace_delimiter {s : String}
    (hws : ∀ c ∈ s.data, c.isWhitespace = true) :
    jsIndexOf s.data kDefaultDelimiter.data = none := by
  cases h : jsIndexOf s.data kDefaultDelimiter.data with
  | none => rfl
  | some p =>
    have hdash : ('-' : Char) ∈ kDefaultDelimiter.data := by decide
    have : ('-' : Char) ∈ s.data := jsIndexOf_some_mem h hdash
    have := hws _ this
    simp at this

/-- When the splitter succeeds with a `down` section, that section is a
non-empty string (it begins with the delimiter that was found). -/
theorem parse_down_ne_empty {c : String} {r : SplitResult} {s : String}
    (hp : migrationSqlParse c kDefaultDelimiter = .ok r) (hd : r.down = some s) :
    s ≠ "" := by
  rw [migrationSqlParse] at hp
  by_cases hc : c = ""
  · simp [hc] at hp
  · simp only [hc, if_false] at hp
    have hsearch :
        searchText (if kDefaultDelimiter = "" then exportsKDefaultDelimiter
          else some kDefaultDelimiter) = kDefaultDelimiter := by decide
    rw [hsearch] at hp
    cases h : jsIndexOf c.data kDefaultDelimiter.data with
    | none =>
      rw [h] at hp
      injection hp with hr
      rw [← hr] at hd
      simp at hd
    | some p =>
      rw [h] at hp
      injection hp with hr
      rw [← hr] at hd
      injection hd with hs
      obtain ⟨t, ht⟩ := jsIndexOf_some_decomp h
      intro hemp
      have hdata : c.data.drop p = [] := by
        have := congrArg String.data (hs.trans hemp)
        exact this
      rw [ht] at hdata
      have h2 : kDefaultDelimiter.data = [] := (List.append_eq_nil.mp hdata).1
      exact absurd h2 (by decide)

/-! ## The migration runner: data model

`src/Migrator.js` consumes three collaborators: the filesystem
(`fs.readdir`, `fs.readFile`), the sequelize session (queries,
transactions, savepoints and the `MigrationMeta` model backed by the
ledger table), and an optional logger.  `Env` fixes the behaviour of
the external collaborators for one run; `Db` is the durable state of
the database session; `Ev` records every observable database or
filesystem interaction in order. -/

/-- Constructor configuration of a `Migrator` instance: the migration
file pattern (a predicate on file names, standing for
`options.pattern` / the default 14+4-digit regex) and the target
schema (`options.schema`, default `"public"`). -/
structure Config where
  pattern : String → Bool
  schema : String

/-- Behaviour of the external collaborators during a run:
`dirListing` is the outcome of `fs.readdir` on the migration
directory, `contents` the outcome of `fs.readFile` per file name, and
`sqlOk` tells whether `sequelize.query` succeeds on a given raw SQL
text (migration SQL; housekeeping statements are assumed to
succeed). -/
structure Env where
  dirListing : Except Err (List String)
  contents : String → Except Err String
  sqlOk : String → Bool

/-- Durable database-session state: the committed rows of the ledger
table `migrations_meta` (migration names in ascending `id` order), the
raw migration SQL statements whose effects are committed, and the
session's `search_path`. -/
structure Db where
  ledger : List String
  applied : List String
  searchPath : String
deriving DecidableEq, Repr

/-- Observable database/filesystem events, in the order they are
issued. -/
inductive Ev where
  | ensureTable
  | beginTx
  | lockTable
  | readDir
  | findAll
  | readFile (name : String)
  | savepoint
  | releaseSavepoint
  | rollbackSavepoint
  | execSql (sql : String)
  | showSearchPath
  | setSearchPath (path : String)
  | ledgerInsert (name : String)
  | ledgerDelete (name : String)
  | commitTx
  | rollbackTx
deriving DecidableEq, Repr

/-- In-transaction view of the database state while the top-level
transaction of a run is open.  Committing makes it the durable state;
rolling the transaction back discards it (PostgreSQL also reverts a
non-local `SET search_path` on rollback). -/
structure Tx where
  ledger : List String
  applied : List String
  searchPath : String
deriving DecidableEq, Repr

/-- Outcome of iterating migrations inside the top-level transaction:
all succeeded; a migration's SQL failed and the handler already rolled
back to the savepoint and committed the transaction; or an error was
thrown before any savepoint handling, leaving the transaction open. -/
inductive IterOut where
  | ok (st : Tx)
  | failCommitted (e : Err) (st : Tx)
  | failOpen (e : Err)
deriving DecidableEq, Repr

/-- Sorting comparator of JavaScript `Array.prototype.sort()` for
strings: lexicographic comparison of the code-unit sequences. -/
def listCharLt : List Char → List Char → Bool
  | [], [] => false
  | [], _ :: _ => true
  | _ :: _, [] => false
  | a :: as, b :: bs =>
    if a.val < b.val then true
    else if b.val < a.val then false
    else listCharLt as bs

/-- Insertion step of the sorting model. -/
def insertSorted (x : String) : List String → List String
  | [] => [x]
  | y :: ys => if listCharLt y.data x.data then y :: insertSorted x ys else x :: y :: ys

/-- Model of `Array.prototype.sort()` on string arrays. -/
def sortStrings (l : List String) : List String := l.foldr insertSorted []

/-- The `difference` helper at the top of `src/Migrator.js`: elements of
`a` that are not in `b`. -/
def difference (a b : List String) : List String := a.filter (fun x => decide (x ∉ b))

namespace Migrator

/-- Embedding of `Migrator.migrationFiles` (src/Migrator.js lines
157-171).  `cache` is the `migrationFiles_` instance field.  The source
returns the cached value when the field is set, otherwise lists the
directory, filters by the pattern and sorts — but it never assigns
`migrationFiles_`, so the returned cache value is unchanged (`none`
stays `none`).  Returns the result, the new value of the cache field
and the trace. -/
def migrationFilesRun (cfg : Config) (env : Env) (cache : Option (List String)) :
    Except Err (List String) × Option (List String) × List Ev :=
  match cache with
  | some fs => (.ok fs, some fs, [])
  | none =>
    match env.dirListing with
    | .error e => (.error e, none, [.readDir])
    | .ok files => (.ok (sortStrings (files.filter cfg.pattern)), none, [.readDir])

/-- Embedding of `Migrator.executed`: a `findAll` ordered by `id`
ascending, i.e. the ledger rows in applied order. -/
def executedRun (db : Db) : List String × List Ev := (db.ledger, [.findAll])

/-- Embedding of `Migrator.pending`: list the migration files and the
executed rows, form the set difference, and sort it.  Both primitives
are invoked (`Promise.all`), so both traces appear even on failure. -/
def pendingRun (cfg : Config) (env : Env) (cache : Option (List String)) (db : Db) :
    Except Err (List String) × Option (List String) × List Ev :=
  match migrationFilesRun cfg env cache with
  | (.error e, c, tr) => (.error e, c, tr ++ (executedRun db).2)
  | (.ok files, c, tr) =>
    (.ok (sortStrings (difference files (executedRun db).1)), c, tr ++ (executedRun db).2)

/-- Embedding of `Migrator.recentlyExecuted`: the last
`max 1 optAmount` executed rows, in ascending order (`slice(-amount)`). -/
def recentlyExecutedRun (db : Db) (optAmount : Nat) : List String × List Ev :=
  let amount := max 1 optAmount
  let ex := (executedRun db).1
  (ex.drop (ex.length - amount), (executedRun db).2)

/-- Embedding of `Migrator.migrationsUp_` (src/Migrator.js lines
278-300).  Each migration file is read and split; a missing up section
throws before any savepoint is opened; otherwise the up SQL runs inside
a savepoint.  On SQL failure the handler rolls back to the savepoint
and commits the top-level transaction before re-throwing.  On success
the savepoint is released and the ledger row is inserted. -/
def migrationsUp (env : Env) (migs : List String) (st : Tx) : IterOut × List Ev :=
  match migs with
  | [] => (.ok st, [])
  | m :: rest =>
    match env.contents m with
    | .error e => (.failOpen e, [.readFile m])
    | .ok content =>
      match migrationSqlParse content kDefaultDelimiter with
      | .error e => (.failOpen e, [.readFile m])
      | .ok parsed =>
        if parsed.up = "" then
          (.failOpen (.missingUpSql m), [.readFile m])
        else if env.sqlOk parsed.up then
          let st' : Tx := ⟨st.ledger ++ [m], st.applied ++ [parsed.up], st.searchPath⟩
          let next := migrationsUp env rest st'
          (next.1,
            [.readFile m, .savepoint, .execSql parsed.up, .releaseSavepoint,
              .ledgerInsert m] ++ next.2)
        else
          (.failCommitted (.sqlError parsed.up) st,
            [.readFile m, .savepoint, .execSql parsed.up, .rollbackSavepoint, .commitTx])

/-- Embedding of `Migrator.migrationsDown_` (src/Migrator.js lines
307-329): like `migrationsUp` but executing the down section, which
must be present and non-empty, and deleting the ledger row on
success. -/
def migrationsDown (env : Env) (migs : List String) (st : Tx) : IterOut × List Ev :=
  match migs with
  | [] => (.ok st, [])
  | m :: rest =>
    match env.contents m with
    | .error e => (.failOpen e, [.readFile m])
    | .ok content =>
      match migrationSqlParse content kDefaultDelimiter with
      | .error e => (.failOpen e, [.readFile m])
      | .ok parsed =>
        match parsed.down with
        | none => (.failOpen (.missingDownSql m), [.readFile m])
        | some sql =>
          if sql = "" then
            (.failOpen (.missingDownSql m), [.readFile m])
          else if env.sqlOk sql then
            let st' : Tx := ⟨st.ledger.erase m, st.applied ++ [sql], st.searchPath⟩
            let next := migrationsDown env rest st'
            (next.1,
              [.readFile m, .savepoint, .execSql sql, .releaseSavepoint,
                .ledgerDelete m] ++ next.2)
          else
            (.failCommitted (.sqlError sql) st,
              [.readFile m, .savepoint, .execSql sql, .rollbackSavepoint, .commitTx])

/-- Embedding of `Migrator.up` (src/Migrator.js lines 94-119).  The
result is `ok none` for the no-pending case (the source returns
`null`), `ok (some names)` on success.  The managed transaction
commits on success, is already committed on the savepoint-failure
path, and rolls back — reverting every in-transaction effect,
including the `SET search_path` — when an error escapes with the
transaction open. -/
def upRun (cfg : Config) (env : Env) (db : Db) :
    Except Err (Option (List String)) × Db × List Ev :=
  let tr0 : List Ev := [.ensureTable, .beginTx, .lockTable]
  match pendingRun cfg env none db with
  | (.error e, _, trP) => (.error e, db, tr0 ++ trP ++ [.rollbackTx])
  | (.ok pendingNames, _, trP) =>
    if pendingNames.isEmpty then
      (.ok none, db, tr0 ++ trP ++ [.commitTx])
    else
      let snapshot := db.searchPath
      let st0 : Tx :=
        ⟨db.ledger, db.applied, if cfg.schema = "" then db.searchPath else cfg.schema⟩
      let trS : List Ev :=
        [.showSearchPath] ++ (if cfg.schema = "" then [] else [.setSearchPath cfg.schema])
      match migrationsUp env pendingNames st0 with
      | (.ok st, trM) =>
        let stR : Tx := if snapshot = "" then st else ⟨st.ledger, st.applied, snapshot⟩
        let trR : List Ev := if snapshot = "" then [] else [.setSearchPath snapshot]
        (.ok (some pendingNames), ⟨stR.ledger, stR.applied, stR.searchPath⟩,
          tr0 ++ trP ++ trS ++ trM ++ trR ++ [.commitTx])
      | (.failCommitted e st, trM) =>
        (.error e, ⟨st.ledger, st.applied, st.searchPath⟩, tr0 ++ trP ++ trS ++ trM)
      | (.failOpen e, trM) =>
        (.error e, db, tr0 ++ trP ++ trS ++ trM ++ [.rollbackTx])

/-- Embedding of `Migrator.down` (src/Migrator.js lines 127-152).
Unlike `up`, it never switches to the configured schema: it only
snapshots the search path and re-applies the snapshot on the success
path.  The set to revert is the recently-executed slice, reversed so
that the most recent migration comes first. -/
def downRun (env : Env) (db : Db) (optAmount : Nat) :
    Except Err (Option (List String)) × Db × List Ev :=
  let tr0 : List Ev := [.ensureTable, .beginTx, .lockTable]
  match recentlyExecutedRun db optAmount with
  | (toUndo, trR) =>
    if toUndo.isEmpty then
      (.ok none, db, tr0 ++ trR ++ [.commitTx])
    else
      let rev := toUndo.reverse
      let snapshot := db.searchPath
      let st0 : Tx := ⟨db.ledger, db.applied, db.searchPath⟩
      match migrationsDown env rev st0 with
      | (.ok st, trM) =>
        let stR : Tx := if snapshot = "" then st else ⟨st.ledger, st.applied, snapshot⟩
        let trRe : List Ev := if snapshot = "" then [] else [.setSearchPath snapshot]
        (.ok (some rev), ⟨stR.ledger, stR.applied, stR.searchPath⟩,
          tr0 ++ trR ++ [.showSearchPath] ++ trM ++ trRe ++ [.commitTx])
      | (.failCommitted e st, trM) =>
        (.error e, ⟨st.ledger, st.applied, st.searchPath⟩,
          tr0 ++ trR ++ [.showSearchPath] ++ trM)
      | (.failOpen e, trM) =>
        (.error e, db, tr0 ++ trR ++ [.showSearchPath] ++ trM ++ [.rollbackTx])

end Migrator

namespace PromiseStyle

/-!
Embedding of the promise-chain runner in `src/unnamed/part_001`.  Its
public methods and private helpers coincide with `src/Migrator.js`
line for line except for the formatting style, the wording of one log
message, and one decisive difference: `parseMigration_` (part_001
lines 349-360) invokes a bare identifier `readFile` that is nowhere
defined in the module (the module only requires `fs`), so every call
throws a `ReferenceError` inside the promise executor and the returned
promise rejects before any file is read.
-/

/-- Embedding of `parseMigration_` of part_001: rejects with a
`ReferenceError` (the identifier `readFile` is not defined) before
touching the filesystem, so no event is traced. -/
def parseMigration (_env : Env) (_name : String) : Except Err SplitResult × List Ev :=
  (.error .referenceError, [])

/-- Embedding of `migrationFiles` of part_001 (lines 167-180), which is
the same code as in `src/Migrator.js`. -/
def migrationFilesRun (cfg : Config) (env : Env) (cache : Option (List String)) :
    Except Err (List String) × Option (List String) × List Ev :=
  match cache with
  | some fs => (.ok fs, some fs, [])
  | none =>
    match env.dirListing with
    | .error e => (.error e, none, [.readDir])
    | .ok files => (.ok (sortStrings (files.filter cfg.pattern)), none, [.readDir])

/-- Embedding of `executed` of part_001 (lines 193-201), same code as
in `src/Migrator.js`. -/
def executedRun (db : Db) : List String × List Ev := (db.ledger, [.findAll])

/-- Embedding of `pending` of part_001 (lines 218-230), same
computation as in `src/Migrator.js` (the `.spread` is Bluebird's
argument-spreading `then`). -/
def pendingRun (cfg : Config) (env : Env) (cache : Option (List String)) (db : Db) :
    Except Err (List String) × Option (List String) × List Ev :=
  match migrationFilesRun cfg env cache with
  | (.error e, c, tr) => (.error e, c, tr ++ (executedRun db).2)
  | (.ok files, c, tr) =>
    (.ok (sortStrings (difference files (executedRun db).1)), c, tr ++ (executedRun db).2)

/-- Embedding of `recentlyExecuted` of part_001 (lines 208-212), same
code as in `src/Migrator.js`. -/
def recentlyExecutedRun (db : Db) (optAmount : Nat) : List String × List Ev :=
  let amount := max 1 optAmount
  let ex := (executedRun db).1
  (ex.drop (ex.length - amount), (executedRun db).2)

/-- Embedding of `migrationsUp_` of part_001 (lines 288-312): the same
savepoint protocol as `src/Migrator.js`, but reading the migration
through the broken `parseMigration_`. -/
def migrationsUp (env : Env) (migs : List String) (st : Tx) : IterOut × List Ev :=
  match migs with
  | [] => (.ok st, [])
  | m :: rest =>
    match parseMigration env m with
    | (.error e, tr) => (.failOpen e, tr)
    | (.ok parsed, tr) =>
      if parsed.up = "" then
        (.failOpen (.missingUpSql m), tr)
      else if env.sqlOk parsed.up then
        let st' : Tx := ⟨st.ledger ++ [m], st.applied ++ [parsed.up], st.searchPath⟩
        let next := migrationsUp env rest st'
        (next.1,
          tr ++ [.savepoint, .execSql parsed.up, .releaseSavepoint, .ledgerInsert m] ++ next.2)
      else
        (.failCommitted (.sqlError parsed.up) st,
          tr ++ [.savepoint, .execSql parsed.up, .rollbackSavepoint, .commitTx])

/-- Embedding of `migrationsDown_` of part_001 (lines 319-343). -/
def migrationsDown (env : Env) (migs : List String) (st : Tx) : IterOut × List Ev :=
  match migs with
  | [] => (.ok st, [])
  | m :: rest =>
    match parseMigration env m with
    | (.error e, tr) => (.failOpen e, tr)
    | (.ok parsed, tr) =>
      match parsed.down with
      | none => (.failOpen (.missingDownSql m), tr)
      | some sql =>
        if sql = "" then
          (.failOpen (.missingDownSql m), tr)
        else if env.sqlOk sql then
          let st' : Tx := ⟨st.ledger.erase m, st.applied ++ [sql], st.searchPath⟩
          let next := migrationsDown env rest st'
          (next.1, tr ++ [.savepoint, .execSql sql, .releaseSavepoint, .ledgerDelete m] ++ next.2)
        else
          (.failCommitted (.sqlError sql) st,
            tr ++ [.savepoint, .execSql sql, .rollbackSavepoint, .commitTx])

/-- Embedding of `up` of part_001 (lines 94-124), structurally the same
managed transaction as in `src/Migrator.js`. -/
def upRun (cfg : Config) (env : Env) (db : Db) :
    Except Err (Option (List String)) × Db × List Ev :=
  let tr0 : List Ev := [.ensureTable, .beginTx, .lockTable]
  match pendingRun cfg env none db with
  | (.error e, _, trP) => (.error e, db, tr0 ++ trP ++ [.rollbackTx])
  | (.ok pendingNames, _, trP) =>
    if pendingNames.isEmpty then
      (.ok none, db, tr0 ++ trP ++ [.commitTx])
    else
      let snapshot := db.searchPath
      let st0 : Tx :=
        ⟨db.ledger, db.applied, if cfg.schema = "" then db.searchPath else cfg.schema⟩
      let trS : List Ev :=
        [.showSearchPath] ++ (if cfg.schema = "" then [] else [.setSearchPath cfg.schema])
      match migrationsUp env pendingNames st0 with
      | (.ok st, trM) =>
        let stR : Tx := if snapshot = "" then st else ⟨st.ledger, st.applied, snapshot⟩
        let trR : List Ev := if snapshot = "" then [] else [.setSearchPath snapshot]
        (.ok (some pendingNames), ⟨stR.ledger, stR.applied, stR.searchPath⟩,
          tr0 ++ trP ++ trS ++ trM ++ trR ++ [.commitTx])
      | (.failCommitted e st, trM) =>
        (.error e, ⟨st.ledger, st.applied, st.searchPath⟩, tr0 ++ trP ++ trS ++ trM)
      | (.failOpen e, trM) =>
        (.error e, db, tr0 ++ trP ++ trS ++ trM ++ [.rollbackTx])

/-- Embedding of `down` of part_001 (lines 132-162), structurally the
same as in `src/Migrator.js`. -/
def downRun (env : Env) (db : Db) (optAmount : Nat) :
    Except Err (Option (List String)) × Db × List Ev :=
  let tr0 : List Ev := [.ensureTable, .beginTx, .lockTable]
  match recentlyExecutedRun db optAmount with
  | (toUndo, trR) =>
    if toUndo.isEmpty then
      (.ok none, db, tr0 ++ trR ++ [.commitTx])
    else
      let rev := toUndo.reverse
      let snapshot := db.searchPath
      let st0 : Tx := ⟨db.ledger, db.applied, db.searchPath⟩
      match migrationsDown env rev st0 with
      | (.ok st, trM) =>
        let stR : Tx := if snapshot = "" then st else ⟨st.ledger, st.applied, snapshot⟩
        let trRe : List Ev := if snapshot = "" then [] else [.setSearchPath snapshot]
        (.ok (some rev), ⟨stR.ledger, stR.applied, stR.searchPath⟩,
          tr0 ++ trR ++ [.showSearchPath] ++ trM ++ trRe ++ [.commitTx])
      | (.failCommitted e st, trM) =>
        (.error e, ⟨st.ledger, st.applied, st.searchPath⟩,
          tr0 ++ trR ++ [.showSearchPath] ++ trM)
      | (.failOpen e, trM) =>
        (.error e, db, tr0 ++ trR ++ [.showSearchPath] ++ trM ++ [.rollbackTx])

end PromiseStyle

/-! ### Basic lemmas about catalog listing and the pending set -/

theorem mem_insertSorted {a x : String} {l : List String} :
    a ∈ insertSorted x l ↔ a = x ∨ a ∈ l := by
  induction l with
  | nil => simp [insertSorted]
  | cons y ys ih =>
    rw [insertSorted]
    by_cases h : listCharLt y.data x.data
    · simp [h, ih]
      tauto
    · simp [h]

theorem mem_sortStrings {a : String} {l : List String} :
    a ∈ sortStrings l ↔ a ∈ l := by
  induction l with
  | nil => simp [sortStrings]
  | cons x xs ih =>
    show a ∈ insertSorted x (sortStrings xs) ↔ _
    rw [mem_insertSorted, ih]
    simp

theorem mem_difference {a : String} {l b : List String} :
    a ∈ difference l b ↔ a ∈ l ∧ a ∉ b := by
  simp [difference, List.mem_filter]

/-- A migration that `migrationsUp_` processes completely: its file is
readable, splits, has a non-empty up section, and that SQL executes
successfully. -/
def GoodUp (env : Env) (m : String) : Prop :=
  ∃ c parsed, env.contents m = .ok c ∧
    migrationSqlParse c kDefaultDelimiter = .ok parsed ∧
    parsed.up ≠ "" ∧ env.sqlOk parsed.up = true

/-- A migration that `migrationsDown_` reverts completely. -/
def GoodDown (env : Env) (m : String) : Prop :=
  ∃ c parsed s, env.contents m = .ok c ∧
    migrationSqlParse c kDefaultDelimiter = .ok parsed ∧
    parsed.down = some s ∧ env.sqlOk s = true

/-- A migration on which `migrationsUp_` throws before opening a
savepoint: unreadable file, unsplittable content, or a missing/empty
up section. -/
def OpenFailUp (env : Env) (m : String) : Prop :=
  (∃ e, env.contents m = .error e) ∨
  (∃ c e, env.contents m = .ok c ∧ migrationSqlParse c kDefaultDelimiter = .error e) ∨
  (∃ c parsed, env.contents m = .ok c ∧
    migrationSqlParse c kDefaultDelimiter = .ok parsed ∧ parsed.up = "")

/-- A migration on which `migrationsDown_` throws before opening a
savepoint. -/
def OpenFailDown (env : Env) (m : String) : Prop :=
  (∃ e, env.contents m = .error e) ∨
  (∃ c e, env.contents m = .ok c ∧ migrationSqlParse c kDefaultDelimiter = .error e) ∨
  (∃ c parsed, env.contents m = .ok c ∧
    migrationSqlParse c kDefaultDelimiter = .ok parsed ∧ parsed.down = none)

namespace Migrator

theorem migrationsUp_cons_good {env : Env} {m : String} {c : String}
    {parsed : SplitResult} (rest : List String) (st : Tx)
    (hc : env.contents m = .ok c)
    (hp : migrationSqlParse c kDefaultDelimiter = .ok parsed)
    (hup : ¬parsed.up = "") (hok : env.sqlOk parsed.up = true) :
    migrationsUp env (m :: rest) st =
      ((migrationsUp env rest ⟨st.ledger ++ [m], st.applied ++ [parsed.up], st.searchPath⟩).1,
        [.readFile m, .savepoint, .execSql parsed.up, .releaseSavepoint, .ledgerInsert m] ++
          (migrationsUp env rest
            ⟨st.ledger ++ [m], st.applied ++ [parsed.up], st.searchPath⟩).2) := by
  simp [migrationsUp, hc, hp, hup, hok]

theorem migrationsUp_cons_sqlFail {env : Env} {m : String} {c : String}
    {parsed : SplitResult} (rest : List String) (st : Tx)
    (hc : env.contents m = .ok c)
    (hp : migrationSqlParse c kDefaultDelimiter = .ok parsed)
    (hup : ¬parsed.up = "") (hfail : env.sqlOk parsed.up = false) :
    migrationsUp env (m :: rest) st =
      (.failCommitted (.sqlError parsed.up) st,
        [.readFile m, .savepoint, .execSql parsed.up, .rollbackSavepoint, .commitTx]) := by
  simp [migrationsUp, hc, hp, hup, hfail]

theorem migrationsUp_cons_openFail {env : Env} {m : String} (rest : List String) (st : Tx)
    (h : OpenFailUp env m) :
    ∃ e, migrationsUp env (m :: rest) st = (.failOpen e, [.readFile m]) := by
  rcases h with ⟨e, hc⟩ | ⟨c, e, hc, hp⟩ | ⟨c, parsed, hc, hp, hup⟩
  · exact ⟨e, by simp [migrationsUp, hc]⟩
  · exact ⟨e, by simp [migrationsUp, hc, hp]⟩
  · exact ⟨.missingUpSql m, by simp [migrationsUp, hc, hp, hup]⟩

theorem migrationsDown_cons_good {env : Env} {m : String} {c : String}
    {parsed : SplitResult} {s : String} (rest : List String) (st : Tx)
    (hc : env.contents m = .ok c)
    (hp : migrationSqlParse c kDefaultDelimiter = .ok parsed)
    (hd : parsed.down = some s) (hok : env.sqlOk s = true) :
    migrationsDown env (m :: rest) st =
      ((migrationsDown env rest ⟨st.ledger.erase m, st.applied ++ [s], st.searchPath⟩).1,
        [.readFile m, .savepoint, .execSql s, .releaseSavepoint, .ledgerDelete m] ++
          (migrationsDown env rest ⟨st.ledger.erase m, st.applied ++ [s], st.searchPath⟩).2) := by
  have hs : ¬s = "" := parse_down_ne_empty hp hd
  simp [migrationsDown, hc, hp, hd, hs, hok]

theorem migrationsDown_cons_sqlFail {env : Env} {m : String} {c : String}
    {parsed : SplitResult} {s : String} (rest : List String) (st : Tx)
    (hc : env.contents m = .ok c)
    (hp : migrationSqlParse c kDefaultDelimiter = .ok parsed)
    (hd : parsed.down = some s) (hfail : env.sqlOk s = false) :
    migrationsDown env (m :: rest) st =
      (.failCommitted (.sqlError s) st,
        [.readFile m, .savepoint, .execSql s, .rollbackSavepoint, .commitTx]) := by
  have hs : ¬s = "" := parse_down_ne_empty hp hd
  simp [migrationsDown, hc, hp, hd, hs, hfail]

theorem migrationsDown_cons_openFail {env : Env} {m : String} (rest : List String) (st : Tx)
    (h : OpenFailDown env m) :
    ∃ e, migrationsDown env (m :: rest) st = (.failOpen e, [.readFile m]) := by
  rcases h with ⟨e, hc⟩ | ⟨c, e, hc, hp⟩ | ⟨c, parsed, hc, hp, hd⟩
  · exact ⟨e, by simp [migrationsDown, hc]⟩
  · exact ⟨e, by simp [migrationsDown, hc, hp]⟩
  · exact ⟨.missingDownSql m, by simp [migrationsDown, hc, hp, hd]⟩

/-- Iterating a block of fully-successful migrations appends exactly
their names to the in-transaction ledger and continues with the rest,
leaving the search path untouched. -/
theorem migrationsUp_good_front {env : Env} (pre : List String) :
    ∀ (rest : List String) (st : Tx), (∀ x ∈ pre, GoodUp env x) →
      ∃ ap tr,
        migrationsUp env (pre ++ rest) st =
          ((migrationsUp env rest ⟨st.ledger ++ pre, ap, st.searchPath⟩).1,
            tr ++ (migrationsUp env rest ⟨st.ledger ++ pre, ap, st.searchPath⟩).2) := by
  induction pre with
  | nil =>
    intro rest st _
    exact ⟨st.applied, [], by simp⟩
  | cons m pre ih =>
    intro rest st hpre
    obtain ⟨c, parsed, hc, hp, hup, hok⟩ := hpre m (by simp)
    obtain ⟨ap, tr, htr⟩ :=
      ih rest ⟨st.ledger ++ [m], st.applied ++ [parsed.up], st.searchPath⟩
        (fun x hx => hpre x (by simp [hx]))
    refine ⟨ap, [.readFile m, .savepoint, .execSql parsed.up, .releaseSavepoint,
      .ledgerInsert m] ++ tr, ?_⟩
    rw [List.cons_append, migrationsUp_cons_good (pre ++ rest) st hc hp hup hok, htr]
    simp

/-- Iterating a block of fully-successful reverts erases exactly their
ledger rows in order and continues with the rest. -/
theorem migrationsDown_good_front {env : Env} (pre : List String) :
    ∀ (rest : List String) (st : Tx), (∀ x ∈ pre, GoodDown env x) →
      ∃ ap tr,
        migrationsDown env (pre ++ rest) st =
          ((migrationsDown env rest
              ⟨pre.foldl (fun l x => l.erase x) st.ledger, ap, st.searchPath⟩).1,
            tr ++ (migrationsDown env rest
              ⟨pre.foldl (fun l x => l.erase x) st.ledger, ap, st.searchPath⟩).2) := by
  induction pre with
  | nil =>
    intro rest st _
    exact ⟨st.applied, [], by simp⟩
  | cons m pre ih =>
    intro rest st hpre
    obtain ⟨c, parsed, s, hc, hp, hd, hok⟩ := hpre m (by simp)
    obtain ⟨ap, tr, htr⟩ :=
      ih rest ⟨st.ledger.erase m, st.applied ++ [s], st.searchPath⟩
        (fun x hx => hpre x (by simp [hx]))
    refine ⟨ap, [.readFile m, .savepoint, .execSql s, .releaseSavepoint,
      .ledgerDelete m] ++ tr, ?_⟩
    rw [List.cons_append, migrationsDown_cons_good (pre ++ rest) st hc hp hd hok, htr]
    simp [List.foldl_cons]

/-- A fully-successful up iteration appends exactly the processed names
to the ledger and preserves the search path. -/
theorem migrationsUp_ok_state {env : Env} :
    ∀ (migs : List String) (st st' : Tx),
      (migrationsUp env migs st).1 = .ok st' →
      st'.ledger = st.ledger ++ migs ∧ st'.searchPath = st.searchPath := by
  intro migs
  induction migs with
  | nil =>
    intro st st' h
    simp [migrationsUp] at h
    simp [← h]
  | cons m rest ih =>
    intro st st' h
    rw [migrationsUp] at h
    cases hc : env.contents m with
    | error e => simp [hc] at h
    | ok c =>
      simp only [hc] at h
      cases hp : migrationSqlParse c kDefaultDelimiter with
      | error e => simp [hp] at h
      | ok parsed =>
        simp only [hp] at h
        by_cases hup : parsed.up = ""
        · simp [hup] at h
        · rw [if_neg hup] at h
          cases hok : env.sqlOk parsed.up with
          | false => simp only [hok, Bool.false_eq_true, if_false] at h; simp at h
          | true =>
            simp only [hok, if_true] at h
            have := ih ⟨st.ledger ++ [m], st.applied ++ [parsed.up], st.searchPath⟩ st' h
            simpa using this

/-- A fully-successful down iteration erases exactly the processed rows
and preserves the search path. -/
theorem migrationsDown_ok_state {env : Env} :
    ∀ (migs : List String) (st st' : Tx),
      (migrationsDown env migs st).1 = .ok st' →
      st'.ledger = migs.foldl (fun l x => l.erase x) st.ledger ∧
        st'.searchPath = st.searchPath := by
  intro migs
  induction migs with
  | nil =>
    intro st st' h
    simp [migrationsDown] at h
    simp [← h]
  | cons m rest ih =>
    intro st st' h
    rw [migrationsDown] at h
    cases hc : env.contents m with
    | error e => simp [hc] at h
    | ok c =>
      simp only [hc] at h
      cases hp : migrationSqlParse c kDefaultDelimiter with
      | error e => simp [hp] at h
      | ok parsed =>
        simp only [hp] at h
        cases hd : parsed.down with
        | none => simp [hd] at h
        | some s =>
          simp only [hd] at h
          by_cases hs : s = ""
          · simp [hs] at h
          · rw [if_neg hs] at h
            cases hok : env.sqlOk s with
            | false => simp only [hok, Bool.false_eq_true, if_false] at h; simp at h
            | true =>
              simp only [hok, if_true] at h
              have := ih ⟨st.ledger.erase m, st.applied ++ [s], st.searchPath⟩ st' h
              simpa using this

/-- The state captured by a failing savepoint handler has the search
path of the iteration's entry state (the iteration never modifies
it). -/
theorem migrationsUp_failCommitted_searchPath {env : Env} :
    ∀ (migs : List String) (st : Tx) (e : Err) (st' : Tx),
      (migrationsUp env migs st).1 = .failCommitted e st' →
      st'.searchPath = st.searchPath := by
  intro migs
  induction migs with
  | nil =>
    intro st e st' h
    simp [migrationsUp] at h
  | cons m rest ih =>
    intro st e st' h
    rw [migrationsUp] at h
    cases hc : env.contents m with
    | error e2 => simp [hc] at h
    | ok c =>
      simp only [hc] at h
      cases hp : migrationSqlParse c kDefaultDelimiter with
      | error e2 => simp [hp] at h
      | ok parsed =>
        simp only [hp] at h
        by_cases hup : parsed.up = ""
        · simp [hup] at h
        · rw [if_neg hup] at h
          cases hok : env.sqlOk parsed.up with
          | false =>
            simp only [hok, Bool.false_eq_true, if_false] at h
            simp at h
            rw [← h.2]
          | true =>
            simp only [hok, if_true] at h
            have := ih ⟨st.ledger ++ [m], st.applied ++ [parsed.up], st.searchPath⟩ e st' h
            simpa using this

/-- Down-iteration counterpart of
`migrationsUp_failCommitted_searchPath`. -/
theorem migrationsDown_failCommitted_searchPath {env : Env} :
    ∀ (migs : List String) (st : Tx) (e : Err) (st' : Tx),
      (migrationsDown env migs st).1 = .failCommitted e st' →
      st'.searchPath = st.searchPath := by
  intro migs
  induction migs with
  | nil =>
    intro st e st' h
    simp [migrationsDown] at h
  | cons m rest ih =>
    intro st e st' h
    rw [migrationsDown] at h
    cases hc : env.contents m with
    | error e2 => simp [hc] at h
    | ok c =>
      simp only [hc] at h
      cases hp : migrationSqlParse c kDefaultDelimiter with
      | error e2 => simp [hp] at h
      | ok parsed =>
        simp only [hp] at h
        cases hd : parsed.down with
        | none => simp [hd] at h
        | some s =>
          simp only [hd] at h
          by_cases hs : s = ""
          · simp [hs] at h
          · rw [if_neg hs] at h
            cases hok : env.sqlOk s with
            | false =>
              simp only [hok, Bool.false_eq_true, if_false] at h
              simp at h
              rw [← h.2]
            | true =>
              simp only [hok, if_true] at h
              have := ih ⟨st.ledger.erase m, st.applied ++ [s], st.searchPath⟩ e st' h
              simpa using this

/-- Direct evaluation of `pending` on a fresh instance when the
directory listing succeeds. -/
theorem pendingRun_none_eq {cfg : Config} {env : Env} {db : Db} {raw : List String}
    (h : env.dirListing = .ok raw) :
    pendingRun cfg env none db =
      (.ok (sortStrings (difference (sortStrings (raw.filter cfg.pattern)) db.ledger)),
        none, [.readDir, .findAll]) := by
  simp [pendingRun, migrationFilesRun, executedRun, h]

/-- Direct evaluation of `pending` on a fresh instance when the
directory listing fails. -/
theorem pendingRun_none_err {cfg : Config} {env : Env} {db : Db} {e : Err}
    (h : env.dirListing = .error e) :
    pendingRun cfg env none db = (.error e, none, [.readDir, .findAll]) := by
  simp [pendingRun, migrationFilesRun, executedRun, h]

/-- Inversion: a successful `pending` on a fresh instance comes from a
successful directory listing. -/
theorem pendingRun_none_ok_inv {cfg : Config} {env : Env} {db : Db} {l : List String}
    (h : (pendingRun cfg env none db).1 = .ok l) :
    ∃ raw, env.dirListing = .ok raw ∧
      l = sortStrings (difference (sortStrings (raw.filter cfg.pattern)) db.ledger) := by
  cases hd : env.dirListing with
  | error e => rw [pendingRun_none_err hd] at h; simp at h
  | ok raw =>
    rw [pendingRun_none_eq hd] at h
    simp at h
    exact ⟨raw, rfl, h.symm⟩

/-- Evaluation of `recentlyExecuted`. -/
theorem recentlyExecutedRun_eq (db : Db) (n : Nat) :
    recentlyExecutedRun db n =
      (db.ledger.drop (db.ledger.length - max 1 n), [.findAll]) := rfl

/-- Behaviour of `up` when the pending set is empty: `null` result, untouched
database, committed transaction. -/
theorem upRun_noPending {cfg : Config} {env : Env} {db : Db}
    (h : (pendingRun cfg env none db).1 = .ok []) :
    upRun cfg env db =
      (.ok none, db,
        [.ensureTable, .beginTx, .lockTable] ++ (pendingRun cfg env none db).2.2 ++
          [.commitTx]) := by
  rcases hpp : pendingRun cfg env none db with ⟨res, cc, trP⟩
  rw [hpp] at h
  simp at h
  subst h
  rw [upRun, hpp]
  simp

/-- Behaviour of `up` when `pending` itself fails: rejected, untouched database,
rolled-back transaction. -/
theorem upRun_pendingErr {cfg : Config} {env : Env} {db : Db} {e : Err}
    (h : (pendingRun cfg env none db).1 = .error e) :
    upRun cfg env db =
      (.error e, db,
        [.ensureTable, .beginTx, .lockTable] ++ (pendingRun cfg env none db).2.2 ++
          [.rollbackTx]) := by
  rcases hpp : pendingRun cfg env none db with ⟨res, cc, trP⟩
  rw [hpp] at h
  simp at h
  subst h
  rw [upRun, hpp]

/-- Behaviour of `up` when the iteration completes: committed transaction, restored
search path, the pending names as result. -/
theorem upRun_iter_ok {cfg : Config} {env : Env} {db : Db} {names : List String}
    {st : Tx} {trM : List Ev}
    (h : (pendingRun cfg env none db).1 = .ok names) (hne : ¬names.isEmpty)
    (hm : migrationsUp env names
        ⟨db.ledger, db.applied, if cfg.schema = "" then db.searchPath else cfg.schema⟩ =
        (.ok st, trM)) :
    upRun cfg env db =
      (.ok (some names),
        ⟨st.ledger, st.applied, if db.searchPath = "" then st.searchPath else db.searchPath⟩,
        [.ensureTable, .beginTx, .lockTable] ++ (pendingRun cfg env none db).2.2 ++
          ([.showSearchPath] ++ (if cfg.schema = "" then [] else [.setSearchPath cfg.schema])) ++
          trM ++ (if db.searchPath = "" then [] else [.setSearchPath db.searchPath]) ++
          [.commitTx]) := by
  rcases hpp : pendingRun cfg env none db with ⟨res, cc, trP⟩
  rw [hpp] at h
  simp at h
  subst h
  rw [upRun, hpp]
  simp only [hne, if_false, Bool.false_eq_true]
  rw [hm]
  by_cases hsp : db.searchPath = "" <;> simp [hsp]

/-- Behaviour of `up` when the SQL of a migration fails: the handler has rolled back to
the savepoint and committed, so the final state is the savepoint
state and no rollback event follows. -/
theorem upRun_iter_failCommitted {cfg : Config} {env : Env} {db : Db} {names : List String}
    {e : Err} {st : Tx} {trM : List Ev}
    (h : (pendingRun cfg env none db).1 = .ok names) (hne : ¬names.isEmpty)
    (hm : migrationsUp env names
        ⟨db.ledger, db.applied, if cfg.schema = "" then db.searchPath else cfg.schema⟩ =
        (.failCommitted e st, trM)) :
    upRun cfg env db =
      (.error e, ⟨st.ledger, st.applied, st.searchPath⟩,
        [.ensureTable, .beginTx, .lockTable] ++ (pendingRun cfg env none db).2.2 ++
          ([.showSearchPath] ++ (if cfg.schema = "" then [] else [.setSearchPath cfg.schema])) ++
          trM) := by
  rcases hpp : pendingRun cfg env none db with ⟨res, cc, trP⟩
  rw [hpp] at h
  simp at h
  subst h
  rw [upRun, hpp]
  simp only [hne, if_false, Bool.false_eq_true]
  rw [hm]

/-- Behaviour of `up` when a migration throws before its savepoint: the open
transaction is rolled back and the database is unchanged. -/
theorem upRun_iter_failOpen {cfg : Config} {env : Env} {db : Db} {names : List String}
    {e : Err} {trM : List Ev}
    (h : (pendingRun cfg env none db).1 = .ok names) (hne : ¬names.isEmpty)
    (hm : migrationsUp env names
        ⟨db.ledger, db.applied, if cfg.schema = "" then db.searchPath else cfg.schema⟩ =
        (.failOpen e, trM)) :
    upRun cfg env db =
      (.error e, db,
        [.ensureTable, .beginTx, .lockTable] ++ (pendingRun cfg env none db).2.2 ++
          ([.showSearchPath] ++ (if cfg.schema = "" then [] else [.setSearchPath cfg.schema])) ++
          trM ++ [.rollbackTx]) := by
  rcases hpp : pendingRun cfg env none db with ⟨res, cc, trP⟩
  rw [hpp] at h
  simp at h
  subst h
  rw [upRun, hpp]
  simp only [hne, if_false, Bool.false_eq_true]
  rw [hm]

/-- Behaviour of `down` when nothing can be undone. -/
theorem downRun_noUndo {env : Env} {db : Db} {n : Nat}
    (h : db.ledger.drop (db.ledger.length - max 1 n) = []) :
    downRun env db n =
      (.ok none, db, [.ensureTable, .beginTx, .lockTable, .findAll, .commitTx]) := by
  rw [downRun, recentlyExecutedRun_eq, h]
  simp

/-- Behaviour of `down` when the revert iteration completes. -/
theorem downRun_iter_ok {env : Env} {db : Db} {n : Nat} {st : Tx} {trM : List Ev}
    (hne : ¬(db.ledger.drop (db.ledger.length - max 1 n)).isEmpty)
    (hm : migrationsDown env (db.ledger.drop (db.ledger.length - max 1 n)).reverse
        ⟨db.ledger, db.applied, db.searchPath⟩ = (.ok st, trM)) :
    downRun env db n =
      (.ok (some (db.ledger.drop (db.ledger.length - max 1 n)).reverse),
        ⟨st.ledger, st.applied, if db.searchPath = "" then st.searchPath else db.searchPath⟩,
        [.ensureTable, .beginTx, .lockTable, .findAll, .showSearchPath] ++ trM ++
          (if db.searchPath = "" then [] else [.setSearchPath db.searchPath]) ++
          [.commitTx]) := by
  rw [downRun, recentlyExecutedRun_eq]
  simp only [hne, if_false, Bool.false_eq_true]
  rw [hm]
  by_cases hsp : db.searchPath = "" <;> simp [hsp]

/-- Behaviour of `down` when the SQL of a revert fails mid-run. -/
theorem downRun_iter_failCommitted {env : Env} {db : Db} {n : Nat} {e : Err} {st : Tx}
    {trM : List Ev}
    (hne : ¬(db.ledger.drop (db.ledger.length - max 1 n)).isEmpty)
    (hm : migrationsDown env (db.ledger.drop (db.ledger.length - max 1 n)).reverse
        ⟨db.ledger, db.applied, db.searchPath⟩ = (.failCommitted e st, trM)) :
    downRun env db n =
      (.error e, ⟨st.ledger, st.applied, st.searchPath⟩,
        [.ensureTable, .beginTx, .lockTable, .findAll, .showSearchPath] ++ trM) := by
  rw [downRun, recentlyExecutedRun_eq]
  simp only [hne, if_false, Bool.false_eq_true]
  rw [hm]
  simp

/-- Behaviour of `down` when a revert throws before its savepoint. -/
theorem downRun_iter_failOpen {env : Env} {db : Db} {n : Nat} {e : Err} {trM : List Ev}
    (hne : ¬(db.ledger.drop (db.ledger.length - max 1 n)).isEmpty)
    (hm : migrationsDown env (db.ledger.drop (db.ledger.length - max 1 n)).reverse
        ⟨db.ledger, db.applied, db.searchPath⟩ = (.failOpen e, trM)) :
    downRun env db n =
      (.error e, db,
        [.ensureTable, .beginTx, .lockTable, .findAll, .showSearchPath] ++ trM ++
          [.rollbackTx]) := by
  rw [downRun, recentlyExecutedRun_eq]
  simp only [hne, if_false, Bool.false_eq_true]
  rw [hm]
  simp

/-- The trace of `pending` consists of catalog/ledger queries only. -/
theorem pendingRun_trace (cfg : Config) (env : Env) (cache : Option (List String)) (db : Db) :
    ∀ e ∈ (pendingRun cfg env cache db).2.2, e = Ev.readDir ∨ e = Ev.findAll := by
  intro e he
  cases cache with
  | some fs => simp [pendingRun, migrationFilesRun, executedRun] at he; simp [he]
  | none =>
    cases hd : env.dirListing with
    | error er =>
      simp [pendingRun, migrationFilesRun, executedRun, hd] at he
      rcases he with he | he <;> simp [he]
    | ok files =>
      simp [pendingRun, migrationFilesRun, executedRun, hd] at he
      rcases he with he | he <;> simp [he]

end Migrator

/-- Recognizer for raw migration-SQL execution events. -/
def isExecSql : Ev → Bool
  | .execSql _ => true
  | _ => false

theorem pendingRun_trace_not_mem {cfg : Config} {env : Env} {cache : Option (List String)}
    {db : Db} {e : Ev} (h1 : e ≠ .readDir) (h2 : e ≠ .findAll) :
    e ∉ (Migrator.pendingRun cfg env cache db).2.2 := by
  intro hmem
  rcases Migrator.pendingRun_trace cfg env cache db e hmem with h | h
  · exact h1 h
  · exact h2 h

theorem pendingRun_trace_no_execSql (cfg : Config) (env : Env) (cache : Option (List String))
    (db : Db) : (Migrator.pendingRun cfg env cache db).2.2.filter isExecSql = [] := by
  rw [List.filter_eq_nil_iff]
  intro e he
  rcases Migrator.pendingRun_trace cfg env cache db e he with h | h <;> simp [h, isExecSql]


/-! ### Scenario lemmas: a run failing at a given position -/

/-- Running `up()` on a pending list with a fully-successful block followed by
a migration whose SQL execution fails. -/
theorem upRun_scenario_sqlFail {cfg : Config} {env : Env} {db : Db} {pre : List String}
    {m : String} {rest : List String} {c : String} {r : SplitResult}
    (hpend : (Migrator.pendingRun cfg env none db).1 = .ok (pre ++ m :: rest))
    (hpre : ∀ x ∈ pre, GoodUp env x)
    (hc : env.contents m = .ok c)
    (hp : migrationSqlParse c kDefaultDelimiter = .ok r)
    (hu : ¬r.up = "") (hf : env.sqlOk r.up = false) :
    ∃ ap tr, Migrator.upRun cfg env db =
      (.error (.sqlError r.up),
        ⟨db.ledger ++ pre, ap, if cfg.schema = "" then db.searchPath else cfg.schema⟩,
        tr) := by
  obtain ⟨ap, tr, hfront⟩ := Migrator.migrationsUp_good_front pre (m :: rest)
    ⟨db.ledger, db.applied, if cfg.schema = "" then db.searchPath else cfg.schema⟩ hpre
  have hcons := Migrator.migrationsUp_cons_sqlFail rest
    ⟨db.ledger ++ pre, ap, if cfg.schema = "" then db.searchPath else cfg.schema⟩
    hc hp hu hf
  have hm : Migrator.migrationsUp env (pre ++ m :: rest)
      ⟨db.ledger, db.applied, if cfg.schema = "" then db.searchPath else cfg.schema⟩ =
      (.failCommitted (.sqlError r.up)
        ⟨db.ledger ++ pre, ap, if cfg.schema = "" then db.searchPath else cfg.schema⟩,
        tr ++ [.readFile m, .savepoint, .execSql r.up, .rollbackSavepoint, .commitTx]) := by
    rw [hfront]
    simp [hcons]
  have hrun := Migrator.upRun_iter_failCommitted hpend (by simp) hm
  exact ⟨ap, _, hrun⟩

/-- Running `up()` on a pending list with a fully-successful block followed by
a migration that throws before its savepoint (unreadable file,
unsplittable content, or missing up section): the transaction rolls
back and the database is unchanged. -/
theorem upRun_scenario_openFail {cfg : Config} {env : Env} {db : Db} {pre : List String}
    {m : String} {rest : List String}
    (hpend : (Migrator.pendingRun cfg env none db).1 = .ok (pre ++ m :: rest))
    (hpre : ∀ x ∈ pre, GoodUp env x)
    (hbad : OpenFailUp env m) :
    ∃ e tr, Migrator.upRun cfg env db = (.error e, db, tr) := by
  obtain ⟨ap, tr, hfront⟩ := Migrator.migrationsUp_good_front pre (m :: rest)
    ⟨db.ledger, db.applied, if cfg.schema = "" then db.searchPath else cfg.schema⟩ hpre
  obtain ⟨e, hcons⟩ := Migrator.migrationsUp_cons_openFail rest
    ⟨db.ledger ++ pre, ap, if cfg.schema = "" then db.searchPath else cfg.schema⟩
    hbad
  have hm : Migrator.migrationsUp env (pre ++ m :: rest)
      ⟨db.ledger, db.applied, if cfg.schema = "" then db.searchPath else cfg.schema⟩ =
      (.failOpen e, tr ++ [.readFile m]) := by
    rw [hfront]
    simp [hcons]
  exact ⟨e, _, Migrator.upRun_iter_failOpen hpend (by simp) hm⟩

/-- Running `down()` on a revert list with a fully-successful block followed by
an entry whose down SQL execution fails. -/
theorem downRun_scenario_sqlFail {env : Env} {db : Db} {n : Nat} {pre : List String}
    {m : String} {rest : List String} {c : String} {r : SplitResult} {s : String}
    (hrev : (db.ledger.drop (db.ledger.length - max 1 n)).reverse = pre ++ m :: rest)
    (hpre : ∀ x ∈ pre, GoodDown env x)
    (hc : env.contents m = .ok c)
    (hp : migrationSqlParse c kDefaultDelimiter = .ok r)
    (hd : r.down = some s) (hf : env.sqlOk s = false) :
    ∃ ap tr, Migrator.downRun env db n =
      (.error (.sqlError s),
        ⟨pre.foldl (fun l x => l.erase x) db.ledger, ap, db.searchPath⟩, tr) := by
  have hne0 : db.ledger.drop (db.ledger.length - max 1 n) ≠ [] := by
    intro h0
    rw [h0] at hrev
    simp at hrev
  have hne : ¬(db.ledger.drop (db.ledger.length - max 1 n)).isEmpty := by
    simpa [List.isEmpty_iff] using hne0
  obtain ⟨ap, tr, hfront⟩ := Migrator.migrationsDown_good_front pre (m :: rest)
    ⟨db.ledger, db.applied, db.searchPath⟩ hpre
  have hcons := Migrator.migrationsDown_cons_sqlFail rest
    ⟨pre.foldl (fun l x => l.erase x) db.ledger, ap, db.searchPath⟩ hc hp hd hf
  have hm : Migrator.migrationsDown env
      (db.ledger.drop (db.ledger.length - max 1 n)).reverse
      ⟨db.ledger, db.applied, db.searchPath⟩ =
      (.failCommitted (.sqlError s)
        ⟨pre.foldl (fun l x => l.erase x) db.ledger, ap, db.searchPath⟩,
        tr ++ [.readFile m, .savepoint, .execSql s, .rollbackSavepoint, .commitTx]) := by
    rw [hrev, hfront]
    simp [hcons]
  exact ⟨ap, _, Migrator.downRun_iter_failCommitted hne hm⟩

/-- Running `down()` on a revert list with a fully-successful block followed by
an entry that throws before its savepoint: the transaction rolls back
and the database is unchanged. -/
theorem downRun_scenario_openFail {env : Env} {db : Db} {n : Nat} {pre : List String}
    {m : String} {rest : List String}
    (hrev : (db.ledger.drop (db.ledger.length - max 1 n)).reverse = pre ++ m :: rest)
    (hpre : ∀ x ∈ pre, GoodDown env x)
    (hbad : OpenFailDown env m) :
    ∃ e tr, Migrator.downRun env db n = (.error e, db, tr) := by
  have hne0 : db.ledger.drop (db.ledger.length - max 1 n) ≠ [] := by
    intro h0
    rw [h0] at hrev
    simp at hrev
  have hne : ¬(db.ledger.drop (db.ledger.length - max 1 n)).isEmpty := by
    simpa [List.isEmpty_iff] using hne0
  obtain ⟨ap, tr, hfront⟩ := Migrator.migrationsDown_good_front pre (m :: rest)
    ⟨db.ledger, db.applied, db.searchPath⟩ hpre
  obtain ⟨e, hcons⟩ := Migrator.migrationsDown_cons_openFail rest
    ⟨pre.foldl (fun l x => l.erase x) db.ledger, ap, db.searchPath⟩ hbad
  have hm : Migrator.migrationsDown env
      (db.ledger.drop (db.ledger.length - max 1 n)).reverse
      ⟨db.ledger, db.applied, db.searchPath⟩ =
      (.failOpen e, tr ++ [.readFile m]) := by
    rw [hrev, hfront]
    simp [hcons]
  exact ⟨e, _, Migrator.downRun_iter_failOpen hne hm⟩

/-! ## Claims -/

/-- C1: for every `up()` run over a pending list of three migrations in
which the first migration's up SQL succeeds and the second migration's
up SQL execution fails, the call rejects with the original execution
error; afterwards the ledger contains exactly the entry recorded for
the first migration (neither the second nor the third); the third
migration is never attempted (its file is not read and no SQL beyond
the second migration's is executed); and the transaction opened by the
run has been committed — no transaction or table lock remains open. -/
theorem c1_partial_failure_durability
    (cfg : Config) (env : Env) (db : Db) (m1 m2 m3 c1 c2 : String)
    (r1 r2 : SplitResult)
    (hpend : (Migrator.pendingRun cfg env none db).1 = .ok [m1, m2, m3])
    (hled : db.ledger = [])
    (hd31 : m3 ≠ m1) (hd32 : m3 ≠ m2)
    (hc1 : env.contents m1 = .ok c1)
    (hp1 : migrationSqlParse c1 kDefaultDelimiter = .ok r1)
    (hu1 : ¬r1.up = "") (hs1 : env.sqlOk r1.up = true)
    (hc2 : env.contents m2 = .ok c2)
    (hp2 : migrationSqlParse c2 kDefaultDelimiter = .ok r2)
    (hu2 : ¬r2.up = "") (hs2 : env.sqlOk r2.up = false) :
    (Migrator.upRun cfg env db).1 = .error (.sqlError r2.up) ∧
    (Migrator.upRun cfg env db).2.1.ledger = [m1] ∧
    (Migrator.upRun cfg env db).2.2.filter isExecSql =
      [.execSql r1.up, .execSql r2.up] ∧
    Ev.readFile m3 ∉ (Migrator.upRun cfg env db).2.2 ∧
    (Migrator.upRun cfg env db).2.2.count .beginTx = 1 ∧
    (Migrator.upRun cfg env db).2.2.count .commitTx = 1 ∧
    (Migrator.upRun cfg env db).2.2.count .rollbackTx = 0 := by
  have h2 := Migrator.migrationsUp_cons_sqlFail [m3]
    ⟨db.ledger ++ [m1], db.applied ++ [r1.up],
      if cfg.schema = "" then db.searchPath else cfg.schema⟩ hc2 hp2 hu2 hs2
  have h1 := Migrator.migrationsUp_cons_good [m2, m3]
    ⟨db.ledger, db.applied, if cfg.schema = "" then db.searchPath else cfg.schema⟩
    hc1 hp1 hu1 hs1
  have hm : Migrator.migrationsUp env [m1, m2, m3]
      ⟨db.ledger, db.applied, if cfg.schema = "" then db.searchPath else cfg.schema⟩ =
      (.failCommitted (.sqlError r2.up)
        ⟨db.ledger ++ [m1], db.applied ++ [r1.up],
          if cfg.schema = "" then db.searchPath else cfg.schema⟩,
        [.readFile m1, .savepoint, .execSql r1.up, .releaseSavepoint, .ledgerInsert m1,
          .readFile m2, .savepoint, .execSql r2.up, .rollbackSavepoint, .commitTx]) := by
    rw [h1]
    simp [h2]
  have hrun := Migrator.upRun_iter_failCommitted hpend (by simp) hm
  rw [hrun]
  have hnx1 : Ev.readFile m3 ∉ (Migrator.pendingRun cfg env none db).2.2 :=
    pendingRun_trace_not_mem (by simp) (by simp)
  have hnx2 : (Migrator.pendingRun cfg env none db).2.2.filter isExecSql = [] :=
    pendingRun_trace_no_execSql cfg env none db
  have hb : (Migrator.pendingRun cfg env none db).2.2.count Ev.beginTx = 0 :=
    List.count_eq_zero.mpr (pendingRun_trace_not_mem (by simp) (by simp))
  have hcm : (Migrator.pendingRun cfg env none db).2.2.count Ev.commitTx = 0 :=
    List.count_eq_zero.mpr (pendingRun_trace_not_mem (by simp) (by simp))
  have hrb : (Migrator.pendingRun cfg env none db).2.2.count Ev.rollbackTx = 0 :=
    List.count_eq_zero.mpr (pendingRun_trace_not_mem (by simp) (by simp))
  refine ⟨rfl, by simp [hled], ?_, ?_, ?_, ?_, ?_⟩ <;>
    by_cases hsch : cfg.schema = "" <;>
      simp [hsch, List.filter_append, List.count_append, hnx1, hnx2, hb, hcm, hrb,
        isExecSql, hd31, hd32]

/-- C1, witnessed on a concrete three-migration scenario in which the
second migration's SQL (`"u2"`) fails. -/
theorem c1_partial_failure_durability_witness :
    (Migrator.upRun ⟨fun _ => true, "public"⟩
      ⟨.ok ["m1.sql", "m2.sql", "m3.sql"],
        fun f => if f = "m1.sql" then .ok "u1" else if f = "m2.sql" then .ok "u2"
          else if f = "m3.sql" then .ok "u3" else .error (.ioError f),
        fun s => decide (s ≠ "u2")⟩
      ⟨[], [], "orig"⟩).1 = .error (.sqlError "u2") ∧
    (Migrator.upRun ⟨fun _ => true, "public"⟩
      ⟨.ok ["m1.sql", "m2.sql", "m3.sql"],
        fun f => if f = "m1.sql" then .ok "u1" else if f = "m2.sql" then .ok "u2"
          else if f = "m3.sql" then .ok "u3" else .error (.ioError f),
        fun s => decide (s ≠ "u2")⟩
      ⟨[], [], "orig"⟩).2.1.ledger = ["m1.sql"] := by
  have h := c1_partial_failure_durability
    ⟨fun _ => true, "public"⟩
    ⟨.ok ["m1.sql", "m2.sql", "m3.sql"],
      fun f => if f = "m1.sql" then .ok "u1" else if f = "m2.sql" then .ok "u2"
        else if f = "m3.sql" then .ok "u3" else .error (.ioError f),
      fun s => decide (s ≠ "u2")⟩
    ⟨[], [], "orig"⟩
    "m1.sql" "m2.sql" "m3.sql" "u1" "u2" ⟨"u1", none⟩ ⟨"u2", none⟩
    (by decide) rfl (by decide) (by decide)
    (by decide) (by decide) (by decide) (by decide)
    (by decide) (by decide) (by decide) (by decide)
  exact ⟨h.1, h.2.1⟩

/-- C2 counterexample: with two pending migrations where the first
succeeds and the second's file read fails with an `IOError`, `up()`
rejects with that error but the whole transaction is rolled back: the
first migration is NOT durably applied (ledger and applied effects are
empty afterwards), contradicting the claim that every kind of mid-run
failure commits the run's earlier successes. -/
theorem c2_counterexample :
    (Migrator.upRun ⟨fun _ => true, "public"⟩
      ⟨.ok ["m1.sql", "m2.sql"],
        fun f => if f = "m1.sql" then .ok "u1" else .error (.ioError f),
        fun _ => true⟩
      ⟨[], [], "orig"⟩).1 = .error (.ioError "m2.sql") ∧
    (Migrator.upRun ⟨fun _ => true, "public"⟩
      ⟨.ok ["m1.sql", "m2.sql"],
        fun f => if f = "m1.sql" then .ok "u1" else .error (.ioError f),
        fun _ => true⟩
      ⟨[], [], "orig"⟩).2.1 = ⟨[], [], "orig"⟩ := by decide

/-- C2 (amended): only a SQL *execution* failure triggers the
savepoint-rollback-then-commit handler that makes the run's earlier
successes durable; when a migration fails mid-run with a
`MigrationError` (missing up/down section, unsplittable or empty file)
or with an `IOError` while reading the file, the error escapes with
the transaction open and the managed transaction rolls back, so the
run's earlier successes are discarded and the database is exactly as
before the run.  This holds for both `up()` and `down()`. -/
theorem c2_partial_progress_policy :
    (∀ (cfg : Config) (env : Env) (db : Db) (pre : List String) (m : String)
        (rest : List String) (c : String) (r : SplitResult),
      (Migrator.pendingRun cfg env none db).1 = .ok (pre ++ m :: rest) →
      (∀ x ∈ pre, GoodUp env x) →
      env.contents m = .ok c →
      migrationSqlParse c kDefaultDelimiter = .ok r →
      ¬r.up = "" → env.sqlOk r.up = false →
      (Migrator.upRun cfg env db).1 = .error (.sqlError r.up) ∧
      (Migrator.upRun cfg env db).2.1.ledger = db.ledger ++ pre) ∧
    (∀ (cfg : Config) (env : Env) (db : Db) (pre : List String) (m : String)
        (rest : List String),
      (Migrator.pendingRun cfg env none db).1 = .ok (pre ++ m :: rest) →
      (∀ x ∈ pre, GoodUp env x) →
      OpenFailUp env m →
      (∃ e, (Migrator.upRun cfg env db).1 = .error e) ∧
      (Migrator.upRun cfg env db).2.1 = db) ∧
    (∀ (env : Env) (db : Db) (n : Nat) (pre : List String) (m : String)
        (rest : List String) (c : String) (r : SplitResult) (s : String),
      (db.ledger.drop (db.ledger.length - max 1 n)).reverse = pre ++ m :: rest →
      (∀ x ∈ pre, GoodDown env x) →
      env.contents m = .ok c →
      migrationSqlParse c kDefaultDelimiter = .ok r →
      r.down = some s → env.sqlOk s = false →
      (Migrator.downRun env db n).1 = .error (.sqlError s) ∧
      (Migrator.downRun env db n).2.1.ledger =
        pre.foldl (fun l x => l.erase x) db.ledger) ∧
    (∀ (env : Env) (db : Db) (n : Nat) (pre : List String) (m : String)
        (rest : List String),
      (db.ledger.drop (db.ledger.length - max 1 n)).reverse = pre ++ m :: rest →
      (∀ x ∈ pre, GoodDown env x) →
      OpenFailDown env m →
      (∃ e, (Migrator.downRun env db n).1 = .error e) ∧
      (Migrator.downRun env db n).2.1 = db) := by
  refine ⟨?_, ?_, ?_, ?_⟩
  · intro cfg env db pre m rest c r hpend hpre hc hp hu hf
    obtain ⟨ap, tr, hrun⟩ := upRun_scenario_sqlFail hpend hpre hc hp hu hf
    rw [hrun]
    exact ⟨rfl, rfl⟩
  · intro cfg env db pre m rest hpend hpre hbad
    obtain ⟨e, tr, hrun⟩ := upRun_scenario_openFail hpend hpre hbad
    rw [hrun]
    exact ⟨⟨e, rfl⟩, rfl⟩
  · intro env db n pre m rest c r s hrev hpre hc hp hd hf
    obtain ⟨ap, tr, hrun⟩ := downRun_scenario_sqlFail hrev hpre hc hp hd hf
    rw [hrun]
    exact ⟨rfl, rfl⟩
  · intro env db n pre m rest hrev hpre hbad
    obtain ⟨e, tr, hrun⟩ := downRun_scenario_openFail hrev hpre hbad
    rw [hrun]
    exact ⟨⟨e, rfl⟩, rfl⟩

/-- C2 (amended), witnessed: a concrete SQL-execution failure at the
second of two pending migrations keeps the first one durable, while a
concrete missing-down-section failure during `down()` leaves the
database untouched. -/
theorem c2_partial_progress_policy_witness :
    (Migrator.upRun ⟨fun _ => true, "public"⟩
      ⟨.ok ["a.sql", "b.sql"],
        fun f => if f = "a.sql" then .ok "u1" else if f = "b.sql" then .ok "u2"
          else .error (.ioError f),
        fun s => decide (s ≠ "u2")⟩
      ⟨[], [], "orig"⟩).2.1.ledger = ["a.sql"] ∧
    (Migrator.downRun
      ⟨.ok ["a.sql"], fun _ => .ok "ua", fun _ => true⟩
      ⟨["a.sql"], ["ua"], "orig"⟩ 1).2.1 = ⟨["a.sql"], ["ua"], "orig"⟩ := by
  constructor
  · have h := c2_partial_progress_policy.1
      ⟨fun _ => true, "public"⟩
      ⟨.ok ["a.sql", "b.sql"],
        fun f => if f = "a.sql" then .ok "u1" else if f = "b.sql" then .ok "u2"
          else .error (.ioError f),
        fun s => decide (s ≠ "u2")⟩
      ⟨[], [], "orig"⟩
      ["a.sql"] "b.sql" [] "u2" ⟨"u2", none⟩
      (by decide)
      (by
        intro x hx
        simp at hx
        subst hx
        exact ⟨"u1", ⟨"u1", none⟩, by decide, by decide, by decide, by decide⟩)
      (by decide) (by decide) (by decide) (by decide)
    simpa using h.2
  · have h := c2_partial_progress_policy.2.2.2
      ⟨.ok ["a.sql"], fun _ => .ok "ua", fun _ => true⟩
      ⟨["a.sql"], ["ua"], "orig"⟩ 1
      [] "a.sql" []
      (by decide)
      (by intro x hx; simp at hx)
      (Or.inr (Or.inr ⟨"ua", ⟨"ua", none⟩, by decide, by decide, by decide⟩))
    exact h.2

/-- C3 counterexample: a concrete `up()` run that reached the
search-path snapshot step (the trace shows `SHOW search_path`) and
then failed on the second migration's SQL leaves the session search
path set to the target schema `"public"`, not restored to the
snapshotted `"orig"` — the restore is skipped on the failure exit
path. -/
theorem c3_counterexample :
    Ev.showSearchPath ∈ (Migrator.upRun ⟨fun _ => true, "public"⟩
      ⟨.ok ["m1.sql", "m2.sql"],
        fun f => if f = "m1.sql" then .ok "u1" else if f = "m2.sql" then .ok "u2"
          else .error (.ioError f),
        fun s => decide (s ≠ "u2")⟩
      ⟨[], [], "orig"⟩).2.2 ∧
    (Migrator.upRun ⟨fun _ => true, "public"⟩
      ⟨.ok ["m1.sql", "m2.sql"],
        fun f => if f = "m1.sql" then .ok "u1" else if f = "m2.sql" then .ok "u2"
          else .error (.ioError f),
        fun s => decide (s ≠ "u2")⟩
      ⟨[], [], "orig"⟩).2.1.searchPath = "public" ∧
    "public" ≠ "orig" := by decide

/-- C3 (amended): the search path is restored on the all-migrations-
succeeded exit of `up()` (given non-empty snapshot) and on every exit
of `down()` (which never switches it); on `up()`'s open-failure exits
the transaction rollback reverts it; but on `up()`'s SQL-execution-
failure exit the restore is skipped and the session is left on the
target schema. -/
theorem c3_search_path_restoration :
    (∀ (cfg : Config) (env : Env) (db : Db) (l : Option (List String)),
      db.searchPath ≠ "" →
      (Migrator.upRun cfg env db).1 = .ok l →
      (Migrator.upRun cfg env db).2.1.searchPath = db.searchPath) ∧
    (∀ (env : Env) (db : Db) (n : Nat),
      (Migrator.downRun env db n).2.1.searchPath = db.searchPath) ∧
    (∀ (cfg : Config) (env : Env) (db : Db) (pre : List String) (m : String)
        (rest : List String) (c : String) (r : SplitResult),
      cfg.schema ≠ "" →
      (Migrator.pendingRun cfg env none db).1 = .ok (pre ++ m :: rest) →
      (∀ x ∈ pre, GoodUp env x) →
      env.contents m = .ok c →
      migrationSqlParse c kDefaultDelimiter = .ok r →
      ¬r.up = "" → env.sqlOk r.up = false →
      (Migrator.upRun cfg env db).2.1.searchPath = cfg.schema) ∧
    (∀ (cfg : Config) (env : Env) (db : Db) (pre : List String) (m : String)
        (rest : List String),
      (Migrator.pendingRun cfg env none db).1 = .ok (pre ++ m :: rest) →
      (∀ x ∈ pre, GoodUp env x) →
      OpenFailUp env m →
      (Migrator.upRun cfg env db).2.1.searchPath = db.searchPath) := by
  refine ⟨?_, ?_, ?_, ?_⟩
  · intro cfg env db l hsp hok
    cases hres : (Migrator.pendingRun cfg env none db).1 with
    | error e =>
      rw [Migrator.upRun_pendingErr hres] at hok
      simp at hok
    | ok names =>
      by_cases hne : names.isEmpty
      · have hnil : names = [] := by simpa [List.isEmpty_iff] using hne
        subst hnil
        rw [Migrator.upRun_noPending hres]
      · rcases hmu : Migrator.migrationsUp env names
          ⟨db.ledger, db.applied, if cfg.schema = "" then db.searchPath else cfg.schema⟩ with
          ⟨out, trM⟩
        cases out with
        | ok st =>
          rw [Migrator.upRun_iter_ok hres hne hmu]
          simp [hsp]
        | failCommitted e st =>
          rw [Migrator.upRun_iter_failCommitted hres hne hmu] at hok
          simp at hok
        | failOpen e =>
          rw [Migrator.upRun_iter_failOpen hres hne hmu] at hok
          simp at hok
  · intro env db n
    by_cases h : (db.ledger.drop (db.ledger.length - max 1 n)).isEmpty
    · rw [Migrator.downRun_noUndo (List.isEmpty_iff.mp h)]
    · rcases hmd : Migrator.migrationsDown env
        (db.ledger.drop (db.ledger.length - max 1 n)).reverse
        ⟨db.ledger, db.applied, db.searchPath⟩ with ⟨out, trM⟩
      cases out with
      | ok st =>
        rw [Migrator.downRun_iter_ok h hmd]
        have hst := (Migrator.migrationsDown_ok_state _ _ st (by rw [hmd])).2
        by_cases hsp : db.searchPath = "" <;> simp [hsp, hst]
      | failCommitted e st =>
        rw [Migrator.downRun_iter_failCommitted h hmd]
        exact Migrator.migrationsDown_failCommitted_searchPath _ _ e st (by rw [hmd])
      | failOpen e =>
        rw [Migrator.downRun_iter_failOpen h hmd]
  · intro cfg env db pre m rest c r hsch hpend hpre hc hp hu hf
    obtain ⟨ap, tr, hrun⟩ := upRun_scenario_sqlFail hpend hpre hc hp hu hf
    rw [hrun]
    simp [hsch]
  · intro cfg env db pre m rest hpend hpre hbad
    obtain ⟨e, tr, hrun⟩ := upRun_scenario_openFail hpend hpre hbad
    rw [hrun]

/-- C3 (amended), witnessed: a fully-successful concrete `up()` run
restores the snapshotted search path, a concrete `down()` leaves it
unchanged, and the concrete SQL-failure run ends on the target
schema. -/
theorem c3_search_path_restoration_witness :
    (Migrator.upRun ⟨fun _ => true, "public"⟩
      ⟨.ok ["m1.sql"], fun _ => .ok "u1", fun _ => true⟩
      ⟨[], [], "orig"⟩).2.1.searchPath = "orig" ∧
    (Migrator.downRun ⟨.ok [], fun _ => .ok "ua", fun _ => true⟩
      ⟨[], [], "orig"⟩ 1).2.1.searchPath = "orig" ∧
    (Migrator.upRun ⟨fun _ => true, "public"⟩
      ⟨.ok ["m1.sql", "m2.sql"],
        fun f => if f = "m1.sql" then .ok "u1" else if f = "m2.sql" then .ok "u2"
          else .error (.ioError f),
        fun s => decide (s ≠ "u2")⟩
      ⟨[], [], "orig"⟩).2.1.searchPath = "public" := by
  refine ⟨?_, ?_, ?_⟩
  · exact c3_search_path_restoration.1 ⟨fun _ => true, "public"⟩
      ⟨.ok ["m1.sql"], fun _ => .ok "u1", fun _ => true⟩ ⟨[], [], "orig"⟩
      (some ["m1.sql"]) (by decide) (by decide)
  · exact c3_search_path_restoration.2.1
      ⟨.ok [], fun _ => .ok "ua", fun _ => true⟩ ⟨[], [], "orig"⟩ 1
  · exact c3_search_path_restoration.2.2.1 ⟨fun _ => true, "public"⟩
      ⟨.ok ["m1.sql", "m2.sql"],
        fun f => if f = "m1.sql" then .ok "u1" else if f = "m2.sql" then .ok "u2"
          else .error (.ioError f),
        fun s => decide (s ≠ "u2")⟩
      ⟨[], [], "orig"⟩
      ["m1.sql"] "m2.sql" [] "u2" ⟨"u2", none⟩
      (by decide) (by decide)
      (by
        intro x hx
        simp at hx
        subst hx
        exact ⟨"u1", ⟨"u1", none⟩, by decide, by decide, by decide, by decide⟩)
      (by decide) (by decide) (by decide) (by decide)

/-- Elements of a catalog listing that are all already recorded leave
an empty pending difference. -/
theorem difference_eq_nil {a b : List String} (h : ∀ x ∈ a, x ∈ b) :
    difference a b = [] := by
  rw [difference, List.filter_eq_nil_iff]
  intro x hx
  simpa using h x hx

/-- C4 counterexample: after a first `up()` that applies the only
pending migration, the immediately following `up()` resolves to `null`
(modelled as `none`), not to the empty list `[]` (modelled as
`some []`), because the source returns `null` when no migrations are
pending. -/
theorem c4_counterexample :
    (Migrator.upRun ⟨fun _ => true, "public"⟩
      ⟨.ok ["m1.sql"], fun _ => .ok "u1", fun _ => true⟩ ⟨[], [], "orig"⟩).1 =
      .ok (some ["m1.sql"]) ∧
    (Migrator.upRun ⟨fun _ => true, "public"⟩
      ⟨.ok ["m1.sql"], fun _ => .ok "u1", fun _ => true⟩
      (Migrator.upRun ⟨fun _ => true, "public"⟩
        ⟨.ok ["m1.sql"], fun _ => .ok "u1", fun _ => true⟩ ⟨[], [], "orig"⟩).2.1).1 =
      .ok none ∧
    (Except.ok none : Except Err (Option (List String))) ≠ .ok (some []) := by decide

/-- C4 (amended): after any `up()` call that resolves successfully,
an immediately following `up()` with the same environment (no new
migration files) resolves to `null` — not `[]` — leaves the database
(in particular the ledger) unchanged, and its trace contains no
migration-SQL execution, no savepoint and no ledger insertion. -/
theorem c4_second_up_is_noop (cfg : Config) (env : Env) (db : Db)
    (r : Option (List String))
    (h : (Migrator.upRun cfg env db).1 = .ok r) :
    (Migrator.upRun cfg env (Migrator.upRun cfg env db).2.1).1 = .ok none ∧
    (Migrator.upRun cfg env (Migrator.upRun cfg env db).2.1).2.1 =
      (Migrator.upRun cfg env db).2.1 ∧
    (∀ s, Ev.execSql s ∉ (Migrator.upRun cfg env (Migrator.upRun cfg env db).2.1).2.2) ∧
    (∀ m, Ev.ledgerInsert m ∉
      (Migrator.upRun cfg env (Migrator.upRun cfg env db).2.1).2.2) ∧
    Ev.savepoint ∉ (Migrator.upRun cfg env (Migrator.upRun cfg env db).2.1).2.2 := by
  have hres2 : (Migrator.pendingRun cfg env none (Migrator.upRun cfg env db).2.1).1 =
      .ok [] := by
    cases hres : (Migrator.pendingRun cfg env none db).1 with
    | error e =>
      rw [Migrator.upRun_pendingErr hres] at h
      simp at h
    | ok names =>
      obtain ⟨raw, hdl, hnames⟩ := Migrator.pendingRun_none_ok_inv hres
      by_cases hne : names.isEmpty
      · have hnil : names = [] := by simpa [List.isEmpty_iff] using hne
        subst hnil
        rw [Migrator.upRun_noPending hres]
        exact hres
      · rcases hmu : Migrator.migrationsUp env names
          ⟨db.ledger, db.applied, if cfg.schema = "" then db.searchPath else cfg.schema⟩ with
          ⟨out, trM⟩
        cases out with
        | ok st =>
          have hled : st.ledger = db.ledger ++ names := by
            have := Migrator.migrationsUp_ok_state names
              ⟨db.ledger, db.applied, if cfg.schema = "" then db.searchPath else cfg.schema⟩
              st (by rw [hmu])
            simpa using this.1
          rw [Migrator.upRun_iter_ok hres hne hmu]
          rw [Migrator.pendingRun_none_eq hdl]
          have hempty : difference (sortStrings (raw.filter cfg.pattern)) st.ledger = [] := by
            apply difference_eq_nil
            intro x hx
            rw [hled]
            by_cases hxdb : x ∈ db.ledger
            · exact List.mem_append_left _ hxdb
            · refine List.mem_append_right _ ?_
              rw [hnames, mem_sortStrings, mem_difference]
              exact ⟨hx, hxdb⟩
          have hs0 : sortStrings (difference (sortStrings (raw.filter cfg.pattern))
              st.ledger) = [] := by
            rw [hempty]
            rfl
          simp [hs0]
        | failCommitted e st =>
          rw [Migrator.upRun_iter_failCommitted hres hne hmu] at h
          simp at h
        | failOpen e =>
          rw [Migrator.upRun_iter_failOpen hres hne hmu] at h
          simp at h
  have hrun2 := Migrator.upRun_noPending hres2
  refine ⟨by rw [hrun2], by rw [hrun2], fun s hmem => ?_, fun m hmem => ?_, fun hmem => ?_⟩ <;>
  · rw [hrun2] at hmem
    simp at hmem
    exact pendingRun_trace_not_mem (by simp) (by simp) hmem

/-- C4 (amended), witnessed on a one-migration catalog. -/
theorem c4_second_up_is_noop_witness :
    (Migrator.upRun ⟨fun _ => true, "public"⟩
      ⟨.ok ["m1.sql"], fun _ => .ok "u1", fun _ => true⟩
      (Migrator.upRun ⟨fun _ => true, "public"⟩
        ⟨.ok ["m1.sql"], fun _ => .ok "u1", fun _ => true⟩ ⟨[], [], "orig"⟩).2.1).1 =
      .ok none ∧
    (Migrator.upRun ⟨fun _ => true, "public"⟩
      ⟨.ok ["m1.sql"], fun _ => .ok "u1", fun _ => true⟩
      (Migrator.upRun ⟨fun _ => true, "public"⟩
        ⟨.ok ["m1.sql"], fun _ => .ok "u1", fun _ => true⟩ ⟨[], [], "orig"⟩).2.1).2.1 =
      (Migrator.upRun ⟨fun _ => true, "public"⟩
        ⟨.ok ["m1.sql"], fun _ => .ok "u1", fun _ => true⟩ ⟨[], [], "orig"⟩).2.1 := by
  have h := c4_second_up_is_noop ⟨fun _ => true, "public"⟩
    ⟨.ok ["m1.sql"], fun _ => .ok "u1", fun _ => true⟩ ⟨[], [], "orig"⟩
    (some ["m1.sql"]) (by decide)
  exact ⟨h.1, h.2.1⟩

/-- C5: the `migrationFiles_` cache field is read by the guard at line
158 of `src/Migrator.js` but never assigned anywhere, so after a call
on a fresh instance the cache is still unpopulated and the next call
invokes `fs.readdir` again — the directory listing is NOT read at most
once per instance lifetime.  The theorem evaluates the embedded method
twice from the constructor state (`none`): both calls trace a
`readDir` and the cache stays `none`, for every configuration and
directory-listing outcome. -/
theorem c5_cache_never_populated (cfg : Config) (env : Env) :
    (Migrator.migrationFilesRun cfg env none).2.1 = none ∧
    (Migrator.migrationFilesRun cfg env none).2.2 = [.readDir] ∧
    (Migrator.migrationFilesRun cfg env
      (Migrator.migrationFilesRun cfg env none).2.1).2.2 = [.readDir] := by
  cases hd : env.dirListing <;> simp [Migrator.migrationFilesRun, hd]

/-- C6: `down(2)` over a ledger ending in the entries `l1` then `l2`
(in applied order, all entries distinct, both files containing a down
section whose SQL succeeds) reverts exactly the two most recent
entries in reverse-of-application order — the result lists `l2` before
`l1` and the down SQL of `l2` executes before that of `l1` — and the
ledger afterwards is the remaining prefix, containing neither
identifier. -/
theorem c6_down_two_reverts_most_recent (env : Env) (db : Db) (L0 : List String)
    (l1 l2 c1 c2 : String) (r1 r2 : SplitResult) (s1 s2 : String)
    (hled : db.ledger = L0 ++ [l1, l2])
    (hnd : db.ledger.Nodup)
    (hc1 : env.contents l1 = .ok c1)
    (hp1 : migrationSqlParse c1 kDefaultDelimiter = .ok r1)
    (hd1 : r1.down = some s1) (hs1 : env.sqlOk s1 = true)
    (hc2 : env.contents l2 = .ok c2)
    (hp2 : migrationSqlParse c2 kDefaultDelimiter = .ok r2)
    (hd2 : r2.down = some s2) (hs2 : env.sqlOk s2 = true) :
    (Migrator.downRun env db 2).1 = .ok (some [l2, l1]) ∧
    (Migrator.downRun env db 2).2.1.ledger = L0 ∧
    l1 ∉ (Migrator.downRun env db 2).2.1.ledger ∧
    l2 ∉ (Migrator.downRun env db 2).2.1.ledger ∧
    (Migrator.downRun env db 2).2.2.filter isExecSql =
      [.execSql s2, .execSql s1] := by
  rw [hled] at hnd
  obtain ⟨hndL0, hnd12, hdisj⟩ := List.nodup_append.mp hnd
  have h12 : l1 ≠ l2 := by simpa using (List.nodup_cons.mp hnd12).1
  have hl1L0 : l1 ∉ L0 := fun hmem => hdisj hmem (by simp)
  have hl2L0 : l2 ∉ L0 := fun hmem => hdisj hmem (by simp)
  have hdrop : db.ledger.drop (db.ledger.length - max 1 2) = [l1, l2] := by
    rw [hled]
    have hlen : (L0 ++ [l1, l2]).length - max 1 2 = L0.length := by
      simp [List.length_append]
    rw [hlen]
    exact List.drop_left _ _
  have hrevlist : (db.ledger.drop (db.ledger.length - max 1 2)).reverse = [l2, l1] := by
    rw [hdrop]
    simp
  have hne : ¬(db.ledger.drop (db.ledger.length - max 1 2)).isEmpty := by
    rw [hdrop]
    simp
  have hE1 : db.ledger.erase l2 = L0 ++ [l1] := by
    rw [hled]
    have : l2 ∉ L0 ++ [l1] := by simp [hl2L0, (Ne.symm h12)]
    calc (L0 ++ [l1, l2]).erase l2 = ((L0 ++ [l1]) ++ [l2]).erase l2 := by simp
    _ = (L0 ++ [l1]) ++ [l2].erase l2 := List.erase_append_right _ this
    _ = L0 ++ [l1] := by simp [List.erase_cons]
  have hE2 : (db.ledger.erase l2).erase l1 = L0 := by
    rw [hE1, List.erase_append_right _ hl1L0]
    simp [List.erase_cons]
  have hA := Migrator.migrationsDown_cons_good [l1]
    ⟨db.ledger, db.applied, db.searchPath⟩ hc2 hp2 hd2 hs2
  have hs1' : ¬s1 = "" := parse_down_ne_empty hp1 hd1
  have hm : Migrator.migrationsDown env
      (db.ledger.drop (db.ledger.length - max 1 2)).reverse
      ⟨db.ledger, db.applied, db.searchPath⟩ =
      (.ok ⟨(db.ledger.erase l2).erase l1, (db.applied ++ [s2]) ++ [s1], db.searchPath⟩,
        [.readFile l2, .savepoint, .execSql s2, .releaseSavepoint, .ledgerDelete l2,
          .readFile l1, .savepoint, .execSql s1, .releaseSavepoint, .ledgerDelete l1]) := by
    rw [hrevlist, hA]
    simp [Migrator.migrationsDown, hc1, hp1, hd1, hs1', hs1]
  have hrun := Migrator.downRun_iter_ok hne hm
  rw [hrun]
  refine ⟨by rw [hrevlist], ?_, ?_, ?_, ?_⟩
  · simpa using hE2
  · simp [hE2, hl1L0]
  · simp [hE2, hl2L0]
  · by_cases hsp : db.searchPath = "" <;> simp [hsp, isExecSql, List.filter_append]

/-- C6, witnessed on a two-entry ledger with concrete down sections. -/
theorem c6_down_two_reverts_most_recent_witness :
    (Migrator.downRun
      ⟨.ok ["a.sql", "b.sql"],
        fun f => if f = "a.sql" then .ok "ua\n-- MIGRATION DOWN SQL\nda"
          else if f = "b.sql" then .ok "ub\n-- MIGRATION DOWN SQL\ndb"
          else .error (.ioError f),
        fun _ => true⟩
      ⟨["a.sql", "b.sql"], ["ua", "ub"], "orig"⟩ 2).1 =
      .ok (some ["b.sql", "a.sql"]) ∧
    (Migrator.downRun
      ⟨.ok ["a.sql", "b.sql"],
        fun f => if f = "a.sql" then .ok "ua\n-- MIGRATION DOWN SQL\nda"
          else if f = "b.sql" then .ok "ub\n-- MIGRATION DOWN SQL\ndb"
          else .error (.ioError f),
        fun _ => true⟩
      ⟨["a.sql", "b.sql"], ["ua", "ub"], "orig"⟩ 2).2.1.ledger = [] := by
  have h := c6_down_two_reverts_most_recent
    ⟨.ok ["a.sql", "b.sql"],
      fun f => if f = "a.sql" then .ok "ua\n-- MIGRATION DOWN SQL\nda"
        else if f = "b.sql" then .ok "ub\n-- MIGRATION DOWN SQL\ndb"
        else .error (.ioError f),
      fun _ => true⟩
    ⟨["a.sql", "b.sql"], ["ua", "ub"], "orig"⟩
    [] "a.sql" "b.sql"
    "ua\n-- MIGRATION DOWN SQL\nda" "ub\n-- MIGRATION DOWN SQL\ndb"
    ⟨"ua", some "\n-- MIGRATION DOWN SQL\nda"⟩
    ⟨"ub", some "\n-- MIGRATION DOWN SQL\ndb"⟩
    "\n-- MIGRATION DOWN SQL\nda" "\n-- MIGRATION DOWN SQL\ndb"
    (by decide) (by decide)
    (by decide) (by decide) (by decide) (by decide)
    (by decide) (by decide) (by decide) (by decide)
  exact ⟨h.1, h.2.1⟩

/-- C7 counterexample: with `s1 = "a"`, `d = "aa"`, `s2 = "x"` the
string `s1` does not contain the delimiter `d`, yet
`split(s1 + d + s2, d)` finds the first occurrence of `"aa"` at
position 0 (straddling the `s1`/`d` boundary) and returns
`{up: "", down: "aaax"}` instead of `{up: "a", down: "aax"}`. -/
theorem c7_counterexample :
    strOccurs "a" "aa" = false ∧
    migrationSqlParse ("a" ++ "aa" ++ "x") "aa" = .ok ⟨"", some "aaax"⟩ ∧
    (Except.ok (⟨"", some "aaax"⟩ : SplitResult) : Except Err SplitResult) ≠
      .ok ⟨"a", some ("aa" ++ "x")⟩ := by decide

/-- C7 (amended): for all strings `s1`, `s2` and every non-empty
delimiter `d` such that the first occurrence of `d` in `s1 + d + s2`
is at position `length s1` (in particular `s1` does not contain `d`
and no occurrence of `d` straddles the `s1`/`d` boundary),
`split(s1 + d + s2, d)` returns `{up: s1, down: d + s2}`. -/
theorem c7_split_round_trip (s1 s2 d : String) (hd : ¬d = "")
    (hfirst : jsIndexOf (s1 ++ d ++ s2).data d.data = some s1.data.length) :
    migrationSqlParse (s1 ++ d ++ s2) d = .ok ⟨s1, some (d ++ s2)⟩ := by
  have hdata : (s1 ++ d ++ s2).data = s1.data ++ (d.data ++ s2.data) := by
    rw [String.data_append, String.data_append, List.append_assoc]
  have hne : ¬(s1 ++ d ++ s2) = "" := by
    intro h0
    apply hd
    have h1 : s1.data ++ (d.data ++ s2.data) = ([] : List Char) := by
      have := congrArg String.data h0
      rw [hdata] at this
      exact this
    have h2 := (List.append_eq_nil.mp (List.append_eq_nil.mp h1).2).1
    exact String.ext h2
  rw [migrationSqlParse, if_neg hne, if_neg hd]
  simp only [searchText]
  rw [hfirst]
  have hup : strTake (s1 ++ d ++ s2) s1.data.length = s1 := by
    rw [strTake, hdata, List.take_left]
  have hdown : strDrop (s1 ++ d ++ s2) s1.data.length = d ++ s2 := by
    rw [strDrop, hdata, List.drop_left]
    exact String.ext (by rw [String.data_append])
  simp only [hup, hdown]

/-- C7 (amended), witnessed with the default delimiter between two
concrete SQL fragments. -/
theorem c7_split_round_trip_witness :
    migrationSqlParse ("create t" ++ kDefaultDelimiter ++ "drop t") kDefaultDelimiter =
      .ok ⟨"create t", some (kDefaultDelimiter ++ "drop t")⟩ :=
  c7_split_round_trip "create t" "drop t" kDefaultDelimiter (by decide) (by decide)

/-- C8 counterexample: the empty string is an "empty or whitespace-only
input", but `split("")` does not succeed with `{up: "", down: null}` —
it throws the usage error (`!migrationSql` is true for `""`). -/
theorem c8_counterexample :
    migrationSqlParse "" kDefaultDelimiter = .error .usage ∧
    migrationSqlParse "" kDefaultDelimiter ≠ .ok ⟨"", none⟩ := by decide

/-- C8 (amended): every NON-empty whitespace-only input is accepted and
yields `{up: input, down: null}` (the default delimiter contains the
non-whitespace character `-`, so it cannot occur in such an input);
the empty string instead fails with the usage error. -/
theorem c8_whitespace_only (s : String) (hne : ¬s = "")
    (hws : ∀ c ∈ s.data, c.isWhitespace = true) :
    migrationSqlParse s kDefaultDelimiter = .ok ⟨s, none⟩ := by
  have hidx := jsIndexOf_whitespace_delimiter hws
  have hdel : ¬(kDefaultDelimiter = "") := by decide
  rw [migrationSqlParse, if_neg hne, if_neg hdel]
  simp only [searchText]
  rw [hidx]

/-- C8 (amended), witnessed on the one-space input of the repository's
own test suite. -/
theorem c8_whitespace_only_witness :
    migrationSqlParse " " kDefaultDelimiter = .ok ⟨" ", none⟩ :=
  c8_whitespace_only " " (by decide) (by decide)

/-- C10: an explicitly supplied empty-string delimiter is falsy, so the
source falls back to `exports.kDefaultDelimiter` — which is
`undefined`, because `module.exports` was reassigned and the property
was set on the new object only.  `indexOf` coerces `undefined` to the
string `"undefined"`: for every non-empty input, `split(text, "")`
behaves exactly like `split(text, "undefined")`; if `"undefined"` does
not occur in the text the result is `{up: text, down: null}`, and
otherwise the text is split at the first occurrence of the literal
substring `"undefined"`. -/
theorem c10_empty_delimiter_searches_undefined (text : String) (h : ¬text = "") :
    migrationSqlParse text "" = migrationSqlParse text "undefined" ∧
    (strOccurs text "undefined" = false →
      migrationSqlParse text "" = .ok ⟨text, none⟩) ∧
    (∀ p, jsIndexOf text.data ("undefined" : String).data = some p →
      migrationSqlParse text "" = .ok ⟨strTake text p, some (strDrop text p)⟩) := by
  have e1 : searchText (if ("" : String) = "" then exportsKDefaultDelimiter
      else some "") = "undefined" := by decide
  have e2 : searchText (if ("undefined" : String) = "" then exportsKDefaultDelimiter
      else some "undefined") = "undefined" := by decide
  refine ⟨?_, ?_, ?_⟩
  · rw [migrationSqlParse, migrationSqlParse, if_neg h, if_neg h, e1, e2]
  · intro hocc
    have hidx : jsIndexOf text.data ("undefined" : String).data = none := by
      rw [strOccurs] at hocc
      cases h' : jsIndexOf text.data ("undefined" : String).data with
      | none => rfl
      | some p => rw [h'] at hocc; simp at hocc
    rw [migrationSqlParse, if_neg h, e1]
    simp only [hidx]
  · intro p hp
    rw [migrationSqlParse, if_neg h, e1]
    simp only [hp]

/-- C10, witnessed: with the empty delimiter, a text without the
substring `"undefined"` is returned whole, and a text containing it is
split at its first occurrence. -/
theorem c10_empty_delimiter_searches_undefined_witness :
    migrationSqlParse "abc" "" = .ok ⟨"abc", none⟩ ∧
    migrationSqlParse "xundefinedy" "" = .ok ⟨"x", some "undefinedy"⟩ := by
  constructor
  · exact (c10_empty_delimiter_searches_undefined "abc" (by decide)).2.1 (by decide)
  · have h := (c10_empty_delimiter_searches_undefined "xundefinedy" (by decide)).2.2
      1 (by decide)
    simpa using h

/-! ### Relating the two runner implementations -/

theorem promise_migrationFilesRun_eq :
    PromiseStyle.migrationFilesRun = Migrator.migrationFilesRun := rfl

theorem promise_executedRun_eq : PromiseStyle.executedRun = Migrator.executedRun := rfl

theorem promise_pendingRun_eq : PromiseStyle.pendingRun = Migrator.pendingRun := rfl

theorem promise_recentlyExecutedRun_eq :
    PromiseStyle.recentlyExecutedRun = Migrator.recentlyExecutedRun := rfl

/-- In part_001 every non-empty iteration fails immediately with the
`ReferenceError` from `parseMigration_`, tracing nothing. -/
theorem promise_migrationsUp_cons (env : Env) (m : String) (rest : List String) (st : Tx) :
    PromiseStyle.migrationsUp env (m :: rest) st = (.failOpen .referenceError, []) := by
  simp [PromiseStyle.migrationsUp, PromiseStyle.parseMigration]

theorem promise_migrationsDown_cons (env : Env) (m : String) (rest : List String) (st : Tx) :
    PromiseStyle.migrationsDown env (m :: rest) st = (.failOpen .referenceError, []) := by
  simp [PromiseStyle.migrationsDown, PromiseStyle.parseMigration]

/-- part_001's `up` when a migration throws with the transaction open
(its only possibility on a non-empty pending set). -/
theorem promise_upRun_iter_failOpen {cfg : Config} {env : Env} {db : Db}
    {names : List String} {e : Err} {trM : List Ev}
    (h : (PromiseStyle.pendingRun cfg env none db).1 = .ok names) (hne : ¬names.isEmpty)
    (hm : PromiseStyle.migrationsUp env names
        ⟨db.ledger, db.applied, if cfg.schema = "" then db.searchPath else cfg.schema⟩ =
        (.failOpen e, trM)) :
    PromiseStyle.upRun cfg env db =
      (.error e, db,
        [.ensureTable, .beginTx, .lockTable] ++ (PromiseStyle.pendingRun cfg env none db).2.2 ++
          ([.showSearchPath] ++ (if cfg.schema = "" then [] else [.setSearchPath cfg.schema])) ++
          trM ++ [.rollbackTx]) := by
  rcases hpp : PromiseStyle.pendingRun cfg env none db with ⟨res, cc, trP⟩
  rw [hpp] at h
  simp at h
  subst h
  rw [PromiseStyle.upRun, hpp]
  simp only [hne, if_false, Bool.false_eq_true]
  rw [hm]

/-- part_001's `down` when a revert throws with the transaction open. -/
theorem promise_downRun_iter_failOpen {env : Env} {db : Db} {n : Nat} {e : Err}
    {trM : List Ev}
    (hne : ¬(db.ledger.drop (db.ledger.length - max 1 n)).isEmpty)
    (hm : PromiseStyle.migrationsDown env
        (db.ledger.drop (db.ledger.length - max 1 n)).reverse
        ⟨db.ledger, db.applied, db.searchPath⟩ = (.failOpen e, trM)) :
    PromiseStyle.downRun env db n =
      (.error e, db,
        [.ensureTable, .beginTx, .lockTable, .findAll, .showSearchPath] ++ trM ++
          [.rollbackTx]) := by
  have hre : PromiseStyle.recentlyExecutedRun db n =
      (db.ledger.drop (db.ledger.length - max 1 n), [.findAll]) := rfl
  rw [PromiseStyle.downRun, hre]
  simp only [hne, if_false, Bool.false_eq_true]
  rw [hm]
  simp

/-- C9 counterexample: on a state with one pending migration whose file
is readable and whose SQL succeeds, `src/Migrator.js` applies it and
resolves with its name, while `src/unnamed/part_001` rejects with a
`ReferenceError` (its `parseMigration_` calls the undefined identifier
`readFile`), so the two implementations are not observationally
equivalent. -/
theorem c9_counterexample :
    (Migrator.upRun ⟨fun _ => true, "public"⟩
      ⟨.ok ["m1.sql"], fun _ => .ok "u1", fun _ => true⟩ ⟨[], [], "orig"⟩).1 =
      .ok (some ["m1.sql"]) ∧
    (PromiseStyle.upRun ⟨fun _ => true, "public"⟩
      ⟨.ok ["m1.sql"], fun _ => .ok "u1", fun _ => true⟩ ⟨[], [], "orig"⟩).1 =
      .error .referenceError ∧
    (Except.ok (some ["m1.sql"]) : Except Err (Option (List String))) ≠
      .error .referenceError := by decide

/-- C9 (amended): the two implementations coincide on the pure query
surface (`migrationFiles`, `executed`, `pending`, `recentlyExecuted`)
and on every `up()`/`down()` run that parses no migration file (failed
or empty pending set; empty ledger).  On any run that reaches
`parseMigration_`, part_001 instead rejects with a `ReferenceError`
before reading any file — leaving the database unchanged and no
`readFile` in its trace — so the implementations are not equivalent on
runs with work to do. -/
theorem c9_promise_variant_equivalence :
    (∀ (cfg : Config) (env : Env) (cache : Option (List String)),
      PromiseStyle.migrationFilesRun cfg env cache = Migrator.migrationFilesRun cfg env cache) ∧
    (∀ db : Db, PromiseStyle.executedRun db = Migrator.executedRun db) ∧
    (∀ (cfg : Config) (env : Env) (cache : Option (List String)) (db : Db),
      PromiseStyle.pendingRun cfg env cache db = Migrator.pendingRun cfg env cache db) ∧
    (∀ (db : Db) (n : Nat),
      PromiseStyle.recentlyExecutedRun db n = Migrator.recentlyExecutedRun db n) ∧
    (∀ (cfg : Config) (env : Env) (db : Db),
      (∀ l, (Migrator.pendingRun cfg env none db).1 = .ok l → l = []) →
      PromiseStyle.upRun cfg env db = Migrator.upRun cfg env db) ∧
    (∀ (env : Env) (db : Db) (n : Nat),
      db.ledger = [] →
      PromiseStyle.downRun env db n = Migrator.downRun env db n) ∧
    (∀ (cfg : Config) (env : Env) (db : Db) (m : String) (ms : List String),
      (Migrator.pendingRun cfg env none db).1 = .ok (m :: ms) →
      (PromiseStyle.upRun cfg env db).1 = .error .referenceError ∧
      (PromiseStyle.upRun cfg env db).2.1 = db ∧
      (∀ name, Ev.readFile name ∉ (PromiseStyle.upRun cfg env db).2.2)) ∧
    (∀ (env : Env) (db : Db) (n : Nat),
      db.ledger ≠ [] →
      (PromiseStyle.downRun env db n).1 = .error .referenceError ∧
      (PromiseStyle.downRun env db n).2.1 = db) := by
  refine ⟨fun _ _ _ => rfl, fun _ => rfl, fun _ _ _ _ => rfl, fun _ _ => rfl,
    ?_, ?_, ?_, ?_⟩
  · intro cfg env db h5
    rw [PromiseStyle.upRun, Migrator.upRun, promise_pendingRun_eq]
    rcases hpp : Migrator.pendingRun cfg env none db with ⟨res, cc, trP⟩
    cases res with
    | error e => rfl
    | ok l =>
      have hnil : l = [] := h5 l (by rw [hpp])
      subst hnil
      rfl
  · intro env db n h6
    rw [PromiseStyle.downRun, Migrator.downRun, promise_recentlyExecutedRun_eq]
    rcases hre : Migrator.recentlyExecutedRun db n with ⟨toUndo, trR⟩
    have : toUndo = [] := by
      rw [Migrator.recentlyExecutedRun_eq] at hre
      injection hre with h1 h2
      rw [← h1, h6]
      simp
    subst this
    rfl
  · intro cfg env db m ms hpend
    have hpend' : (PromiseStyle.pendingRun cfg env none db).1 = .ok (m :: ms) := by
      rw [promise_pendingRun_eq]
      exact hpend
    have hm := promise_migrationsUp_cons env m ms
      ⟨db.ledger, db.applied, if cfg.schema = "" then db.searchPath else cfg.schema⟩
    have hrun := promise_upRun_iter_failOpen hpend' (by simp) hm
    rw [hrun]
    refine ⟨rfl, rfl, fun name hmem => ?_⟩
    simp at hmem
    rw [promise_pendingRun_eq] at hmem
    exact pendingRun_trace_not_mem (by simp) (by simp) hmem
  · intro env db n h8
    have hlt : db.ledger.length - max 1 n < db.ledger.length :=
      Nat.sub_lt (List.length_pos.mpr h8)
        (lt_of_lt_of_le Nat.zero_lt_one (le_max_left 1 n))
    have hne0 : db.ledger.drop (db.ledger.length - max 1 n) ≠ [] := by
      intro h0
      have := List.drop_eq_nil_iff.mp h0
      omega
    have hne : ¬(db.ledger.drop (db.ledger.length - max 1 n)).isEmpty := by
      simpa [List.isEmpty_iff] using hne0
    have hrne : (db.ledger.drop (db.ledger.length - max 1 n)).reverse ≠ [] := by
      simpa using hne0
    rcases hrev : (db.ledger.drop (db.ledger.length - max 1 n)).reverse with _ | ⟨m, ms⟩
    · exact absurd hrev hrne
    · have hm : PromiseStyle.migrationsDown env
          (db.ledger.drop (db.ledger.length - max 1 n)).reverse
          ⟨db.ledger, db.applied, db.searchPath⟩ = (.failOpen .referenceError, []) := by
        rw [hrev]
        exact promise_migrationsDown_cons env m ms _
      have hrun := promise_downRun_iter_failOpen hne hm
      rw [hrun]
      exact ⟨rfl, rfl⟩

/-- C9 (amended), witnessed: the variants agree on a concrete no-op
`up()` (everything already applied) and on a concrete no-op `down()`
(empty ledger), while a concrete non-empty `down()` rejects with the
`ReferenceError` in part_001. -/
theorem c9_promise_variant_equivalence_witness :
    PromiseStyle.upRun ⟨fun _ => true, "public"⟩
      ⟨.ok ["m1.sql"], fun _ => .ok "u1", fun _ => true⟩ ⟨["m1.sql"], ["u1"], "orig"⟩ =
      Migrator.upRun ⟨fun _ => true, "public"⟩
        ⟨.ok ["m1.sql"], fun _ => .ok "u1", fun _ => true⟩ ⟨["m1.sql"], ["u1"], "orig"⟩ ∧
    PromiseStyle.downRun ⟨.ok [], fun _ => .ok "u1", fun _ => true⟩ ⟨[], [], "orig"⟩ 1 =
      Migrator.downRun ⟨.ok [], fun _ => .ok "u1", fun _ => true⟩ ⟨[], [], "orig"⟩ 1 ∧
    (PromiseStyle.downRun ⟨.ok [], fun _ => .ok "u1", fun _ => true⟩
      ⟨["m1.sql"], ["u1"], "orig"⟩ 1).1 = .error .referenceError := by
  refine ⟨?_, ?_, ?_⟩
  · exact c9_promise_variant_equivalence.2.2.2.2.1 ⟨fun _ => true, "public"⟩
      ⟨.ok ["m1.sql"], fun _ => .ok "u1", fun _ => true⟩ ⟨["m1.sql"], ["u1"], "orig"⟩
      (fun l hl => by
        rw [show (Migrator.pendingRun ⟨fun _ => true, "public"⟩
          ⟨.ok ["m1.sql"], fun _ => .ok "u1", fun _ => true⟩ none
          ⟨["m1.sql"], ["u1"], "orig"⟩).1 = .ok [] from by decide] at hl
        simpa using hl.symm)
  · exact c9_promise_variant_equivalence.2.2.2.2.2.1
      ⟨.ok [], fun _ => .ok "u1", fun _ => true⟩ ⟨[], [], "orig"⟩ 1 rfl
  · exact (c9_promise_variant_equivalence.2.2.2.2.2.2.2
      ⟨.ok [], fun _ => .ok "u1", fun _ => true⟩ ⟨["m1.sql"], ["u1"], "orig"⟩ 1
      (by simp)).1

end SequelizeMigrator
